import Mathlib

/-!
links-overseer: URL normalisation and the crawl controller.

A shallow embedding of `internal/core/normalize.go`, `internal/core/crawler.go`
and `internal/core/checker.go`, together with the parts of the Go standard
library (`strings`, `path`, `net/url`, `net`) and of `golang.org/x/net/publicsuffix`
that these files call.

Go strings are byte sequences; they are embedded as lists of characters, one
character per byte.  Case mapping is the ASCII one (which is what
`strings.ToLower` and `strings.EqualFold` do on ASCII strings).
-/

namespace LinksOverseer

/-- A Go `string`: a sequence of bytes, one `Char` per byte. -/
abbrev Str := List Char

/-! ## package strings -/

/-- Lower-case mapping of one ASCII byte. -/
def lowerByte (c : Char) : Char :=
  if 'A' ≤ c ∧ c ≤ 'Z' then Char.ofNat (c.toNat + 32) else c

/-- The function `strings.ToLower` (on ASCII). -/
def ToLower (s : Str) : Str := s.map lowerByte

/-- The function `strings.EqualFold` (on ASCII). -/
def EqualFold (a b : Str) : Bool := ToLower a == ToLower b

/-- The function `strings.Cut(s, sep)` for a one-byte separator:
`(before, after, found)`. -/
def cutByte (sep : Char) : Str → Str × Str × Bool
  | [] => ([], [], false)
  | c :: cs =>
    if c = sep then ([], cs, true)
    else
      let r := cutByte sep cs
      (c :: r.1, r.2.1, r.2.2)

/-- The function `strings.Split(s, sep)` for a one-byte separator. -/
def splitByte (sep : Char) : Str → List Str
  | [] => [[]]
  | c :: cs =>
    if c = sep then [] :: splitByte sep cs
    else
      match splitByte sep cs with
      | [] => [[c]]
      | seg :: segs => (c :: seg) :: segs

/-- Helper of `lastIndexByte`: scan with a running index. -/
def lastIndexFrom (sep : Char) : Nat → Str → Option Nat → Option Nat
  | _, [], acc => acc
  | i, c :: cs, acc => lastIndexFrom sep (i + 1) cs (if c = sep then some i else acc)

/-- The function `strings.LastIndexByte`; `none` stands for `-1`. -/
def lastIndexByte (sep : Char) (s : Str) : Option Nat := lastIndexFrom sep 0 s none

/-- The function `strings.Index(s, pat)`; `none` stands for `-1`. -/
def indexStr (pat : Str) : Str → Option Nat
  | [] => if pat = [] then some 0 else none
  | c :: cs =>
    if pat.isPrefixOf (c :: cs) then some 0
    else (indexStr pat cs).map (· + 1)

/-- The function `strings.HasPrefix`. -/
def startsWith (s pat : Str) : Bool := pat.isPrefixOf s

/-- The function `strings.HasSuffix`. -/
def endsWith (s pat : Str) : Bool := pat.isSuffixOf s

/-- The function `strings.Contains`. -/
def containsStr (s pat : Str) : Bool := (indexStr pat s).isSome

/-- The function `strings.Join`. -/
def joinWith (sep : Str) : List Str → Str
  | [] => []
  | [a] => a
  | a :: b :: rest => a ++ sep ++ joinWith sep (b :: rest)

/-- Byte-wise lexicographic `<` on strings (Go's `<` on `string`). -/
def strLess : Str → Str → Bool
  | [], [] => false
  | [], _ :: _ => true
  | _ :: _, [] => false
  | a :: as, b :: bs =>
    if a.toNat < b.toNat then true
    else if b.toNat < a.toNat then false
    else strLess as bs

/-- Insertion of a key into a sorted list of keys. -/
def insertKey (k : Str) : List Str → List Str
  | [] => [k]
  | x :: xs => if strLess x k then x :: insertKey k xs else k :: x :: xs

/-- The function `slices.Sort` on a slice of strings. -/
def sortKeys (ks : List Str) : List Str := ks.foldr insertKey []

/-! ## package path -/

/-- The main loop of `path.Clean`, element by element: `out` holds the elements
written so far and `dotdot` how many of them are a leading `..` prefix that
must not be backtracked over. -/
def cleanElems (rooted : Bool) : List Str → List Str → Nat → List Str
  | [], out, _ => out
  | seg :: rest, out, dotdot =>
    if seg = [] ∨ seg = ['.'] then cleanElems rooted rest out dotdot
    else if seg = ['.', '.'] then
      if out.length > dotdot then cleanElems rooted rest out.dropLast dotdot
      else if !rooted then cleanElems rooted rest (out ++ [seg]) (out.length + 1)
      else cleanElems rooted rest out dotdot
    else cleanElems rooted rest (out ++ [seg]) dotdot

/-- The function `path.Clean`. -/
def Clean (path : Str) : Str :=
  if path = [] then ['.']
  else
    let rooted := path.head? = some '/'
    let body := joinWith ['/'] (cleanElems rooted (splitByte '/' path) [] 0)
    if rooted then '/' :: body
    else if body = [] then ['.'] else body

/-! ## package net/url -/

/-- The escaping modes of `net/url`. -/
inductive encoding where
  | encodePath
  | encodePathSegment
  | encodeHost
  | encodeZone
  | encodeUserPassword
  | encodeQueryComponent
  | encodeFragment
  deriving DecidableEq, Repr

open encoding

/-- Whether a byte is an ASCII letter. -/
def isAlpha (c : Char) : Bool := ('a' ≤ c ∧ c ≤ 'z') ∨ ('A' ≤ c ∧ c ≤ 'Z')

/-- Whether a byte is an ASCII digit. -/
def isDigit (c : Char) : Bool := '0' ≤ c ∧ c ≤ '9'

/-- The function `ishex` of `net/url`. -/
def ishex (c : Char) : Bool :=
  ('0' ≤ c ∧ c ≤ '9') ∨ ('a' ≤ c ∧ c ≤ 'f') ∨ ('A' ≤ c ∧ c ≤ 'F')

/-- The function `unhex` of `net/url`. -/
def unhex (c : Char) : Nat :=
  if '0' ≤ c ∧ c ≤ '9' then c.toNat - '0'.toNat
  else if 'a' ≤ c ∧ c ≤ 'f' then c.toNat - 'a'.toNat + 10
  else if 'A' ≤ c ∧ c ≤ 'F' then c.toNat - 'A'.toNat + 10
  else 0

/-- The single quote and the double quote, as bytes. -/
def quote1 : Char := Char.ofNat 39
def quote2 : Char := Char.ofNat 34

/-- The function `shouldEscape` of `net/url`. -/
def shouldEscape (c : Char) (mode : encoding) : Bool :=
  if isAlpha c ∨ isDigit c then false
  else if (mode = encodeHost ∨ mode = encodeZone) ∧
      c ∈ ['!', '$', '&', quote1, '(', ')', '*', '+', ',', ';', '=', ':', '[', ']',
           '<', '>', quote2] then false
  else if c ∈ ['-', '_', '.', '~'] then false
  else if c ∈ ['$', '&', '+', ',', '/', ':', ';', '=', '?', '@'] then
    match mode with
    | encodePath => c = '?'
    | encodePathSegment => c = '/' ∨ c = ';' ∨ c = ',' ∨ c = '?'
    | encodeUserPassword => c = '@' ∨ c = '/' ∨ c = '?' ∨ c = ':'
    | encodeQueryComponent => true
    | encodeFragment => false
    | encodeHost => true
    | encodeZone => true
  else if mode = encodeFragment ∧ c ∈ ['!', '(', ')', '*'] then false
  else true

/-- Upper-case hexadecimal digit. -/
def upperhex (n : Nat) : Char := "0123456789ABCDEF".toList.getD n '0'

/-- The function `escape` of `net/url`. -/
def escape (s : Str) (mode : encoding) : Str :=
  s.flatMap fun c =>
    if c = ' ' ∧ mode = encodeQueryComponent then ['+']
    else if shouldEscape c mode then ['%', upperhex (c.toNat / 16), upperhex (c.toNat % 16)]
    else [c]

/-- The function `unescape` of `net/url`; `none` is an error return. -/
def unescape (mode : encoding) : Str → Option Str
  | [] => some []
  | c :: cs =>
    if c = '%' then
      match cs with
      | a :: b :: rest =>
        if !ishex a || !ishex b then none
        else if mode = encodeHost ∧ unhex a < 8 ∧ ¬ (a = '2' ∧ b = '5') then none
        else if mode = encodeZone ∧ ¬ (a = '2' ∧ b = '5') ∧
            Char.ofNat (unhex a * 16 + unhex b) ≠ ' ' ∧
            shouldEscape (Char.ofNat (unhex a * 16 + unhex b)) encodeHost then none
        else (unescape mode rest).map (Char.ofNat (unhex a * 16 + unhex b) :: ·)
      | _ => none
    else if c = '+' then
      (unescape mode cs).map ((if mode = encodeQueryComponent then ' ' else '+') :: ·)
    else if (mode = encodeHost ∨ mode = encodeZone) ∧ c.toNat < 128 ∧
        shouldEscape c encodeHost then none
    else (unescape mode cs).map (c :: ·)

/-- The function `validEncoded` of `net/url`. -/
def validEncoded (s : Str) (mode : encoding) : Bool :=
  s.all fun c =>
    if c ∈ ['!', '$', '&', quote1, '(', ')', '*', '+', ',', ';', '=', ':', '@'] then true
    else if c ∈ ['[', ']'] then true
    else if c = '%' then true
    else !shouldEscape c mode

/-- The type `url.Userinfo`. -/
structure Userinfo where
  username : Str
  password : Str
  passwordSet : Bool
  deriving DecidableEq, Repr

/-- The type `url.URL`. -/
structure URL where
  Scheme : Str := []
  Opaque : Str := []
  User : Option Userinfo := none
  Host : Str := []
  Path : Str := []
  RawPath : Str := []
  OmitHost : Bool := false
  ForceQuery : Bool := false
  RawQuery : Str := []
  Fragment : Str := []
  RawFragment : Str := []
  deriving DecidableEq, Repr

/-- The method `(*Userinfo).String`. -/
def Userinfo.String (ui : Userinfo) : Str :=
  escape ui.username encodeUserPassword ++
    (if ui.passwordSet then ':' :: escape ui.password encodeUserPassword else [])

/-- The method `(*URL).EscapedPath`: the `RawPath` hint is used only when it is
a valid encoding of `Path`. -/
def URL.EscapedPath (u : URL) : Str :=
  if u.RawPath ≠ [] ∧ validEncoded u.RawPath encodePath ∧
      unescape encodePath u.RawPath = some u.Path then u.RawPath
  else if u.Path = ['*'] then ['*']
  else escape u.Path encodePath

/-- The method `(*URL).EscapedFragment`. -/
def URL.EscapedFragment (u : URL) : Str :=
  if u.RawFragment ≠ [] ∧ validEncoded u.RawFragment encodeFragment ∧
      unescape encodeFragment u.RawFragment = some u.Fragment then u.RawFragment
  else escape u.Fragment encodeFragment

/-- The method `(*URL).String`. -/
def URL.String (u : URL) : Str :=
  let scheme := if u.Scheme ≠ [] then u.Scheme ++ [':'] else []
  let body :=
    if u.Opaque ≠ [] then scheme ++ u.Opaque
    else
      let auth :=
        if u.Scheme ≠ [] ∨ u.Host ≠ [] ∨ u.User.isSome then
          if u.OmitHost ∧ u.Host = [] ∧ u.User.isNone then []
          else
            (if u.Host ≠ [] ∨ u.Path ≠ [] ∨ u.User.isSome then ['/', '/'] else []) ++
            (match u.User with
             | some ui => ui.String ++ ['@']
             | none => []) ++
            (if u.Host ≠ [] then escape u.Host encodeHost else [])
        else []
      let path := u.EscapedPath
      let slash := if path ≠ [] ∧ path.head? ≠ some '/' ∧ u.Host ≠ [] then ['/'] else []
      let buf := scheme ++ auth ++ slash
      let dot :=
        if buf = [] ∧ (cutByte '/' path).1.contains ':' then ['.', '/'] else []
      buf ++ dot ++ path
  let query := if u.ForceQuery ∨ u.RawQuery ≠ [] then '?' :: u.RawQuery else []
  let frag := if u.Fragment ≠ [] then '#' :: u.EscapedFragment else []
  body ++ query ++ frag

/-- The function `validOptionalPort` of `net/url`. -/
def validOptionalPort (port : Str) : Bool :=
  match port with
  | [] => true
  | c :: rest => c = ':' && rest.all isDigit

/-- The function `splitHostPort` of `net/url`, first component. -/
def splitHost (hostPort : Str) : Str :=
  let host :=
    match lastIndexByte ':' hostPort with
    | some colon =>
      if validOptionalPort (hostPort.drop colon) then hostPort.take colon else hostPort
    | none => hostPort
  if startsWith host ['['] ∧ endsWith host [']'] then (host.drop 1).dropLast else host

/-- The method `(*URL).Hostname`. -/
def URL.Hostname (u : URL) : Str := splitHost u.Host

/-- The function `stringContainsCTLByte` of `net/url`. -/
def stringContainsCTLByte (s : Str) : Bool := s.any fun c => c.toNat < 32 ∨ c.toNat = 127

/-- Helper of `getScheme`: the loop over the bytes of `rawURL`, `i` being the
index of the byte at the head of the remaining input. -/
def getSchemeFrom (rawURL : Str) : Nat → Str → Option (Str × Str)
  | _, [] => some ([], rawURL)
  | i, c :: cs =>
    if isAlpha c then getSchemeFrom rawURL (i + 1) cs
    else if isDigit c ∨ c = '+' ∨ c = '-' ∨ c = '.' then
      if i = 0 then some ([], rawURL) else getSchemeFrom rawURL (i + 1) cs
    else if c = ':' then
      if i = 0 then none else some (rawURL.take i, cs)
    else some ([], rawURL)

/-- The function `getScheme` of `net/url`: `(scheme, rest)`, `none` on
`missing protocol scheme`. -/
def getScheme (rawURL : Str) : Option (Str × Str) := getSchemeFrom rawURL 0 rawURL

/-- The function `validUserinfo` of `net/url`. -/
def validUserinfo (s : Str) : Bool :=
  s.all fun r =>
    isAlpha r || isDigit r ||
    decide (r ∈ ['-', '.', '_', ':', '~', '!', '$', '&', quote1, '(', ')', '*', '+', ',',
                 ';', '=', '%', '@'])

/-- The function `parseHost` of `net/url` (Go 1.21 to 1.25). -/
def parseHost (host : Str) : Option Str :=
  if startsWith host ['['] then
    match lastIndexByte ']' host with
    | none => none
    | some i =>
      if !validOptionalPort (host.drop (i + 1)) then none
      else
        match indexStr ['%', '2', '5'] (host.take i) with
        | some zone =>
          match unescape encodeHost (host.take zone),
                unescape encodeZone ((host.take i).drop zone),
                unescape encodeHost (host.drop i) with
          | some host1, some host2, some host3 => some (host1 ++ host2 ++ host3)
          | _, _, _ => none
        | none => unescape encodeHost host
  else
    match lastIndexByte ':' host with
    | some i =>
      if !validOptionalPort (host.drop i) then none else unescape encodeHost host
    | none => unescape encodeHost host

/-- The function `parseAuthority` of `net/url`. -/
def parseAuthority (authority : Str) : Option (Option Userinfo × Str) :=
  match lastIndexByte '@' authority with
  | none => (parseHost authority).map fun h => (none, h)
  | some i =>
    match parseHost (authority.drop (i + 1)) with
    | none => none
    | some host =>
      let userinfo := authority.take i
      if !validUserinfo userinfo then none
      else if !userinfo.contains ':' then
        (unescape encodeUserPassword userinfo).map fun name =>
          (some ⟨name, [], false⟩, host)
      else
        let c := cutByte ':' userinfo
        match unescape encodeUserPassword c.1, unescape encodeUserPassword c.2.1 with
        | some name, some pass => some (some ⟨name, pass, true⟩, host)
        | _, _ => none

/-- The method `(*URL).setPath`: `RawPath` is kept only when the default
escaping of the decoded path differs from the input. -/
def URL.setPath (u : URL) (p : Str) : Option URL :=
  (unescape encodePath p).map fun path =>
    { u with Path := path, RawPath := if p = escape path encodePath then [] else p }

/-- The method `(*URL).setFragment`. -/
def URL.setFragment (u : URL) (f : Str) : Option URL :=
  (unescape encodeFragment f).map fun frag =>
    { u with Fragment := frag,
             RawFragment := if f = escape frag encodeFragment then [] else f }

/-- The function `parse(rawURL, viaRequest)` of `net/url` with
`viaRequest = false`. -/
def parseNoFragment (rawURL : Str) : Option URL :=
  if stringContainsCTLByte rawURL then none
  else if rawURL = ['*'] then some { Path := ['*'] }
  else
    match getScheme rawURL with
    | none => none
    | some (scheme0, rest0) =>
      let scheme := ToLower scheme0
      let force := endsWith rest0 ['?'] && rest0.count '?' == 1
      let rest := if force then rest0.dropLast else (cutByte '?' rest0).1
      let rawQuery := if force then [] else (cutByte '?' rest0).2.1
      let url : URL := { Scheme := scheme, ForceQuery := force, RawQuery := rawQuery }
      if startsWith rest ['/'] = false ∧ scheme ≠ [] then some { url with Opaque := rest }
      else if startsWith rest ['/'] = false ∧ (cutByte '/' rest).1.contains ':' then none
      else if (scheme ≠ [] ∨ startsWith rest ['/', '/', '/'] = false) ∧
          startsWith rest ['/', '/'] then
        let after := rest.drop 2
        let c := cutByte '/' after
        let authority := c.1
        let rest2 := if c.2.2 then '/' :: c.2.1 else []
        match parseAuthority authority with
        | none => none
        | some (user, host) => ({ url with User := user, Host := host }).setPath rest2
      else if scheme ≠ [] ∧ startsWith rest ['/'] then
        ({ url with OmitHost := true }).setPath rest
      else url.setPath rest

/-- The function `url.Parse`; `none` is an error return. -/
def Parse (rawURL : Str) : Option URL :=
  let c := cutByte '#' rawURL
  match parseNoFragment c.1 with
  | none => none
  | some url => if c.2.1 = [] then some url else url.setFragment c.2.1

/-- The type `url.Values` (`map[string][]string`): one entry per key. -/
abbrev Values := List (Str × List Str)

/-- The statement `m[key] = append(m[key], value)`. -/
def Values.add (m : Values) (key value : Str) : Values :=
  if m.any (fun p => p.1 = key) then
    m.map fun p => if p.1 = key then (p.1, p.2 ++ [value]) else p
  else m ++ [(key, [value])]

/-- The method `Values.Del`. -/
def Values.Del (m : Values) (key : Str) : Values := m.filter fun p => p.1 ≠ key

/-- The function `url.QueryUnescape`. -/
def QueryUnescape (s : Str) : Option Str := unescape encodeQueryComponent s

/-- The function `url.QueryEscape`. -/
def QueryEscape (s : Str) : Str := escape s encodeQueryComponent

/-- The loop of `parseQuery` over the `&`-separated pieces; a piece with a
semicolon, an empty piece and a piece that does not unescape are skipped. -/
def parseQueryPieces : List Str → Values → Values
  | [], m => m
  | piece :: rest, m =>
    if piece.contains ';' then parseQueryPieces rest m
    else if piece = [] then parseQueryPieces rest m
    else
      let c := cutByte '=' piece
      match QueryUnescape c.1, QueryUnescape c.2.1 with
      | some key, some value => parseQueryPieces rest (m.add key value)
      | _, _ => parseQueryPieces rest m

/-- The method `(*URL).Query`, that is `ParseQuery(u.RawQuery)` with the error
dropped. -/
def URL.Query (u : URL) : Values :=
  if u.RawQuery = [] then [] else parseQueryPieces (splitByte '&' u.RawQuery) []

/-- The pairs `key=value` that `Values.Encode` writes for one key. -/
def encodeKey (v : Values) (k : Str) : List Str :=
  match v.find? (fun p => p.1 = k) with
  | none => []
  | some p => p.2.map fun value => QueryEscape k ++ ['='] ++ QueryEscape value

/-- The method `Values.Encode`: keys in sorted order, `&` between pairs. -/
def Values.Encode (v : Values) : Str :=
  joinWith ['&'] ((sortKeys (v.map Prod.fst)).flatMap (encodeKey v))

/-! ## package golang.org/x/net/publicsuffix -/

/-- The public suffix returned by `publicsuffix.PublicSuffix` when no rule of
the list matches: the prevailing rule is `*`, the last label of the domain. -/
def PublicSuffixStar (domain : Str) : Str :=
  match lastIndexByte '.' domain with
  | some i => domain.drop (i + 1)
  | none => domain

/-- The function `publicsuffix.EffectiveTLDPlusOne`, over the lookup
`PublicSuffix` of the suffix list; `none` is an error return. -/
def EffectiveTLDPlusOne (PublicSuffix : Str → Str) (domain : Str) : Option Str :=
  if startsWith domain ['.'] ∨ endsWith domain ['.'] ∨ containsStr domain ['.', '.'] then none
  else
    let suffix := PublicSuffix domain
    if domain.length ≤ suffix.length then none
    else
      let i := domain.length - suffix.length - 1
      if domain.get? i ≠ some '.' then none
      else
        match lastIndexByte '.' (domain.take i) with
        | some j => some (domain.drop (1 + j))
        | none => some domain

/-! ## internal/core/normalize.go -/

/-- The set `stripParams`. -/
def stripParams : List Str :=
  ["utm_source".toList, "utm_medium".toList, "utm_campaign".toList, "utm_term".toList,
   "utm_content".toList, "gclid".toList, "fbclid".toList, "mc_cid".toList, "mc_eid".toList]

/-- The call `reDefaultPorts.ReplaceAllString(host, "")` for the pattern
`:(80|443)$`: the only possible match is a suffix `:80` or `:443`. -/
def reDefaultPortsReplaceAll (host : Str) : Str :=
  if endsWith host [':', '8', '0'] then host.take (host.length - 3)
  else if endsWith host [':', '4', '4', '3'] then host.take (host.length - 4)
  else host

/-- The type `DomainNormalizer`. -/
structure DomainNormalizer where
  rootETLD1 : Str
  deriving DecidableEq, Repr

/-- The function `NewDomainNormalizer`. -/
def NewDomainNormalizer (PublicSuffix : Str → Str) (start : URL) : DomainNormalizer :=
  let etld1 :=
    match EffectiveTLDPlusOne PublicSuffix start.Hostname with
    | some e => e
    | none => start.Hostname
  { rootETLD1 := ToLower etld1 }

/-- The method `(*DomainNormalizer).IsInternal`; `none` is the nil pointer. -/
def DomainNormalizer.IsInternal (PublicSuffix : Str → Str) (d : DomainNormalizer)
    (u : Option URL) : Bool :=
  match u with
  | none => false
  | some u =>
    match EffectiveTLDPlusOne PublicSuffix u.Hostname with
    | none => false
    | some etld1 => EqualFold etld1 d.rootETLD1

/-- The loop of `Normalize` over the sorted keys: a key whose lower-case form
is in `stripParams` is deleted from the values. -/
def delStripped : List Str → Values → Values
  | [], vals => vals
  | k :: keys, vals =>
    if ToLower k ∈ stripParams then delStripped keys (vals.Del k) else delStripped keys vals

/-- The method `(*DomainNormalizer).Normalize`; `none` is the nil pointer. -/
def Normalize (u : Option URL) : Str :=
  match u with
  | none => []
  | some u =>
    let uu := { u with Fragment := [] }
    let uu := { uu with Scheme := ToLower uu.Scheme }
    let uu := { uu with Host := ToLower uu.Host }
    let uu := { uu with Host := reDefaultPortsReplaceAll uu.Host }
    let uu := { uu with Path := Clean uu.Path }
    let uu := if uu.Path = ['.'] then { uu with Path := ['/'] } else uu
    let uu :=
      if uu.RawQuery ≠ [] then
        let vals := uu.Query
        let keys := sortKeys (vals.map Prod.fst)
        { uu with RawQuery := (delStripped keys vals).Encode }
      else uu
    uu.String

/-! ## package net: textual IP addresses -/

/-- An address as `net.ParseIP` returns it: sixteen bytes. -/
abbrev IP := List Nat

/-- One decimal field of a dotted IPv4 address (`parseIPv4Fields`): at least one
digit, no leading zero, value at most 255. -/
def parseIPv4Field (f : Str) : Option Nat :=
  if f = [] then none
  else if f.all isDigit = false then none
  else if f.length > 1 ∧ f.head? = some '0' then none
  else
    let v := f.foldl (fun a c => a * 10 + (c.toNat - '0'.toNat)) 0
    if v > 255 then none else some v

/-- The four bytes of a dotted IPv4 address. -/
def parseIPv4 (s : Str) : Option (List Nat) :=
  match splitByte '.' s with
  | [a, b, c, d] =>
    match parseIPv4Field a, parseIPv4Field b, parseIPv4Field c, parseIPv4Field d with
    | some a, some b, some c, some d => some [a, b, c, d]
    | _, _, _, _ => none
  | _ => none

/-- One hexadecimal group of an IPv6 address: one to four digits. -/
def parseHexGroup (g : Str) : Option (List Nat) :=
  if g = [] ∨ g.length > 4 ∨ g.all ishex = false then none
  else
    let v := g.foldl (fun a c => a * 16 + unhex c) 0
    some [v / 256, v % 256]

/-- The bytes of a colon-separated run of groups; with `allowV4` the last group
may be a dotted IPv4 address. -/
def parseGroups (allowV4 : Bool) : List Str → Option (List Nat)
  | [] => some []
  | [g] => if allowV4 ∧ g.contains '.' then parseIPv4 g else parseHexGroup g
  | g :: rest =>
    match parseHexGroup g, parseGroups allowV4 rest with
    | some a, some b => some (a ++ b)
    | _, _ => none

/-- The IPv6 branch of `net.ParseIP` (`netip.parseIPv6`, a zone being refused):
groups before and after at most one `::`, which stands for at least one group
of zeros. -/
def parseIPv6 (s : Str) : Option IP :=
  if s.contains '%' then none
  else
    match indexStr [':', ':'] s with
    | none =>
      match parseGroups true (splitByte ':' s) with
      | some b => if b.length = 16 then some b else none
      | none => none
    | some i =>
      let left := s.take i
      let right := s.drop (i + 2)
      let lb := if left = [] then some [] else parseGroups false (splitByte ':' left)
      let rb := if right = [] then some [] else parseGroups true (splitByte ':' right)
      match lb, rb with
      | some lb, some rb =>
        if lb.length + rb.length ≥ 16 then none
        else some (lb ++ List.replicate (16 - lb.length - rb.length) 0 ++ rb)
      | _, _ => none

/-- The function `net.ParseIP`: the first of `.`, `:` and `%` in the text
selects the branch. -/
def ParseIP (s : Str) : Option IP :=
  match s.find? (fun c => c = '.' ∨ c = ':' ∨ c = '%') with
  | some c =>
    if c = '.' then (parseIPv4 s).map fun v4 => [0, 0, 0, 0, 0, 0, 0, 0, 0, 0, 255, 255] ++ v4
    else if c = ':' then parseIPv6 s
    else none
  | none => none

/-- The method `IP.To4`. -/
def To4 (ip : IP) : Option (List Nat) :=
  if ip.length = 4 then some ip
  else if ip.length = 16 ∧ (ip.take 10).all (· = 0) ∧ ip.get? 10 = some 255 ∧
      ip.get? 11 = some 255 then some (ip.drop 12)
  else none

/-- The method `IP.IsLoopback`. -/
def IsLoopback (ip : IP) : Bool :=
  match To4 ip with
  | some ip4 => ip4.getD 0 0 = 127
  | none => ip = [0, 0, 0, 0, 0, 0, 0, 0, 0, 0, 0, 0, 0, 0, 0, 1]

/-- The method `IP.IsPrivate`. -/
def IsPrivate (ip : IP) : Bool :=
  match To4 ip with
  | some ip4 =>
    ip4.getD 0 0 = 10 ∨ (ip4.getD 0 0 = 172 ∧ ip4.getD 1 0 / 16 = 1) ∨
      (ip4.getD 0 0 = 192 ∧ ip4.getD 1 0 = 168)
  | none => ip.length = 16 ∧ ip.getD 0 0 / 2 = 126

/-- The method `IP.IsLinkLocalUnicast`. -/
def IsLinkLocalUnicast (ip : IP) : Bool :=
  match To4 ip with
  | some ip4 => ip4.getD 0 0 = 169 ∧ ip4.getD 1 0 = 254
  | none => ip.length = 16 ∧ ip.getD 0 0 = 254 ∧ ip.getD 1 0 / 64 = 2

/-- The method `IP.IsLinkLocalMulticast`. -/
def IsLinkLocalMulticast (ip : IP) : Bool :=
  match To4 ip with
  | some ip4 => ip4.getD 0 0 = 224 ∧ ip4.getD 1 0 = 0 ∧ ip4.getD 2 0 = 0
  | none => ip.length = 16 ∧ ip.getD 0 0 = 255 ∧ ip.getD 1 0 % 16 = 2

/-! ## internal/core/types.go -/

/-- The type `Result` (a LinkRecord). -/
structure Result where
  URL : Str
  PageURL : Str
  Internal : Bool
  StatusCode : Int
  Err : Str
  ElapsedMS : Int
  Depth : Int
  deriving DecidableEq, Repr

/-! ## The network, as seen by one request -/

/-- A Go `error` value: its text, and whether `errors.As` finds a `net.Error`
in it. -/
structure GoError where
  msg : Str
  isNetError : Bool
  deriving DecidableEq, Repr

/-- What the code reads of an `*http.Response`: the status code, the final
request URL, and, for a page, the `href` values of its anchors already resolved
by `base.Parse` (those that fail to resolve left out), in document order. -/
structure Response where
  StatusCode : Int
  RequestURL : URL
  hrefs : List URL
  deriving DecidableEq, Repr

/-- The request methods the code uses. -/
inductive Method where
  | HEAD
  | GET
  deriving DecidableEq, Repr

/-- The value `ctx.Err()` of a cancelled context. -/
def ctxErr : GoError := ⟨"context canceled".toList, false⟩

/-! ## internal/core/checker.go -/

/-- The environment of one probe: the answer of `c.Client.Do` to the `k`-th
request of the probe, the wall-clock time a `CheckOnce` takes, and whether the
context is done at each of the two waits of `CheckURL`. -/
structure ProbeEnv where
  Do : Nat → Method → Str → Except GoError Response
  since : Nat → Int
  doneAtJitter : Bool
  doneAtBackoff : Bool

/-- The method `(*Checker).CheckOnce`, its requests numbered from `k`:
`(code, final, elapsed, err)`. -/
def CheckOnce (env : ProbeEnv) (k : Nat) (u : URL) : Int × Str × Int × Option GoError :=
  let viaGet : Int × Str × Int × Option GoError :=
    match env.Do (k + 1) Method.GET u.String with
    | .error err => (0, [], env.since k, some err)
    | .ok resp => (resp.StatusCode, resp.RequestURL.String, env.since k, none)
  match env.Do k Method.HEAD u.String with
  | .error _ => viaGet
  | .ok resp =>
    if resp.StatusCode ≥ 400 ∨ resp.StatusCode = 405 then viaGet
    else (resp.StatusCode, resp.RequestURL.String, env.since k, none)

/-- The method `(*Checker).CheckURL` (the two semaphores, which only delay the
probe, left out): one retry after a network error. -/
def CheckURL (env : ProbeEnv) (u : URL) : Int × Str × Int × Option GoError :=
  if env.doneAtJitter then (0, [], 0, some ctxErr)
  else
    let r := CheckOnce env 0 u
    match r.2.2.2 with
    | none => r
    | some err =>
      if err.isNetError ∨ containsStr err.msg "timeout".toList then
        if env.doneAtBackoff then (0, [], r.2.2.1, some ctxErr)
        else
          let r2 := CheckOnce env 2 u
          if r2.2.2.2 = none then (r2.1, r2.2.1, r.2.2.1 + r2.2.2.1, none) else r
      else r

/-! ## internal/core/robots.go -/

/-- What the code reads of a `robotstxt.Group`. -/
structure Group where
  Test : Str → Bool
  CrawlDelay : Int

/-- What the code reads of a `robotstxt.RobotsData`. -/
structure RobotsData where
  FindGroup : Str → Option Group

/-- The type `RobotsGuard`. -/
structure RobotsGuard where
  allowed : Bool
  rules : Option RobotsData
  agent : Str

/-- The group `Allowed` and `HumanizeCrawlDelay` consult: the one of the agent,
else the one of `*`. -/
def findGroup (rules : RobotsData) (agent : Str) : Option Group :=
  match rules.FindGroup agent with
  | some grp => some grp
  | none => rules.FindGroup ['*']

/-- The method `(*RobotsGuard).Allowed`; `none` is the nil guard. -/
def Allowed (rg : Option RobotsGuard) (u : URL) : Bool :=
  match rg with
  | none => true
  | some rg =>
    if !rg.allowed then true
    else
      match rg.rules with
      | none => true
      | some rules =>
        match findGroup rules rg.agent with
        | none => true
        | some grp => grp.Test u.Path

/-- The function `HumanizeCrawlDelay`. -/
def HumanizeCrawlDelay (rg : Option RobotsGuard) : Int :=
  match rg with
  | none => 0
  | some rg =>
    match rg.rules with
    | none => 0
    | some rules =>
      match findGroup rules rg.agent with
      | none => 0
      | some grp => grp.CrawlDelay

/-! ## internal/core/crawler.go -/

/-- The fields of `Checker` that `NewCrawler` reads and writes (durations in
nanoseconds). -/
structure Checker where
  UserAgent : Str
  HostDelay : Int
  MaxPerHost : Int

/-- The function `NewChecker`. -/
def NewChecker (ua : Str) : Checker :=
  { UserAgent := ua, HostDelay := 600 * 1000000, MaxPerHost := 2 }

/-- The type `Crawler`; the two `sync.Map`s are lists of entries, one per key. -/
structure Crawler where
  Checker : Checker
  Normalizer : DomainNormalizer
  RespectRobots : Bool
  Robots : Option RobotsGuard
  MaxDepth : Int
  MaxURLs : Int
  seenPages : List (Str × Int)
  seenLinks : List Str
  checkedLinks : Int
  totalLinks : Int

/-- The function `NewCrawler`; `robots` is what `FetchRobots` returned (read
only when `respectRobots` is set). -/
def NewCrawler (PublicSuffix : Str → Str) (start : URL) (maxDepth : Int)
    (respectRobots : Bool) (checker : Checker) (robots : RobotsGuard) : Crawler :=
  let cd := HumanizeCrawlDelay (some robots)
  { Checker :=
      if respectRobots ∧ cd > 0 ∧ cd > checker.HostDelay then { checker with HostDelay := cd }
      else checker
    Normalizer := NewDomainNormalizer PublicSuffix start
    RespectRobots := respectRobots
    Robots := if respectRobots then some robots else none
    MaxDepth := maxDepth
    MaxURLs := 2000
    seenPages := []
    seenLinks := []
    checkedLinks := 0
    totalLinks := 0 }

/-- The method `sync.Map.Load` on `seenPages`, second result. -/
def seenPagesLoad (m : List (Str × Int)) (key : Str) : Bool := m.any fun p => p.1 = key

/-- The method `sync.Map.Store` on `seenPages`. -/
def seenPagesStore (m : List (Str × Int)) (key : Str) (depth : Int) : List (Str × Int) :=
  if seenPagesLoad m key then m.map fun p => if p.1 = key then (key, depth) else p
  else m ++ [(key, depth)]

/-- The method `sync.Map.LoadOrStore` on `seenLinks`: the map afterwards and
whether the key was already there. -/
def seenLinksLoadOrStore (m : List Str) (key : Str) : List Str × Bool :=
  if key ∈ m then (m, true) else (m ++ [key], false)

/-- The method `(*Crawler).shouldVisit`. -/
def shouldVisit (PublicSuffix : Str → Str) (c : Crawler) (u : URL) (depth : Int) : Bool :=
  if depth > c.MaxDepth then false
  else if u.Scheme ≠ "http".toList ∧ u.Scheme ≠ "https".toList then false
  else if !c.Normalizer.IsInternal PublicSuffix (some u) then false
  else if seenPagesLoad c.seenPages (Normalize (some u)) then false
  else if c.RespectRobots ∧ c.Robots.isSome ∧ !Allowed c.Robots u then false
  else true

/-- The function `isPrivateHost`. -/
def isPrivateHost (u : URL) : Bool :=
  let h := u.Hostname
  if h = "localhost".toList then true
  else
    match ParseIP h with
    | some ip => IsLoopback ip || IsPrivate ip || IsLinkLocalUnicast ip || IsLinkLocalMulticast ip
    | none => false

/-- The text of the error `fetch` returns for a private host. -/
def blockedMsg : Str := "blocked private/loopback host".toList

/-- The world of one run of `Crawl`: the public-suffix lookup, and, for the
`i`-th iteration of the controller loop, whether its `select` takes the
`ctx.Done()` case, whether the context is done during the pause of `fetch`, and
what `c.Client.Do` answers to the page request. -/
structure World where
  PublicSuffix : Str → Str
  done : Nat → Bool
  doneInFetch : Nat → Bool
  Do : Nat → Str → Except GoError Response

/-- The method `(*Crawler).fetch`, called in iteration `i`. -/
def fetch (w : World) (i : Nat) (u : URL) : Except GoError Response :=
  if isPrivateHost u then .error ⟨blockedMsg, false⟩
  else if w.doneInFetch i then .error ctxErr
  else w.Do i u.String

/-- The method `(*Crawler).extractLinks`, on the resolved `href` values of the
parsed document. -/
def extractLinks (resp : Response) : List URL :=
  resp.hrefs.filter fun u2 => u2.Scheme = "http".toList ∨ u2.Scheme = "https".toList

/-- The method `(*Crawler).checkLinkAndSink`: the record it passes to `sink`. -/
def checkLinkAndSink (env : ProbeEnv) (page u : URL) (internal : Bool) : Result :=
  let r := CheckURL env u
  { URL := u.String
    PageURL := page.String
    Internal := internal
    StatusCode := r.1
    ElapsedMS := r.2.2.1
    Depth := 0
    Err := match r.2.2.2 with
      | some err => err.msg
      | none => [] }

/-! ## The controller loop of `Crawl` -/

/-- The local type `Item` of `Crawl`; `u = none` is the nil pointer. -/
structure Item where
  u : Option URL
  depth : Int
  deriving DecidableEq, Repr

/-- One `go c.checkLinkAndSink(ctx, base, u2, internal, sink, progress)`
statement, with the depth of the page being processed when it ran. -/
structure Probe where
  page : URL
  u : URL
  internal : Bool
  pageDepth : Int
  deriving DecidableEq, Repr

/-- The capacity of the frontier channel, `make(chan Item, 1024)`. -/
def frontierCap : Nat := 1024

/-- The state of a run of `Crawl`: the crawler, the buffered channel `q`, the
local counters, and the position in the body of the loop (`cur` holds the depth
of the page being processed, its base URL and the links still to go through;
`none` at the top of the loop).  The last four fields record what the run has
done so far: the items sent on `q`, the items received from it and fetched,
the probes started, and the records the controller itself gave to `sink`. -/
structure CrawlState where
  c : Crawler
  q : List Item
  visited : Int
  discovered : Int
  errs : Int
  cur : Option (Int × URL × List URL)
  sent : List Item
  fetched : List Item
  spawned : List Probe
  sunk : List Result

/-- How a run stands: still executing, returned (with the error, if any),
parked for ever on a receive from the empty channel, or parked for ever on a
send to the full channel (the controller is the only receiver). -/
inductive Outcome where
  | running (s : CrawlState)
  | returned (err : Option GoError) (s : CrawlState)
  | blockedRecv (s : CrawlState)
  | blockedSend (s : CrawlState)

/-- The state an outcome carries. -/
def Outcome.state : Outcome → CrawlState
  | .running s => s
  | .returned _ s => s
  | .blockedRecv s => s
  | .blockedSend s => s

/-- The first statement of the body of `for _, u2 := range links`: the link is
put in `seenLinks`, and when it was not there yet `totalLinks` grows and a
probe is started. -/
def probeLink (w : World) (s : CrawlState) (depth : Int) (base : URL) (u2 : URL) :
    CrawlState :=
  let r := seenLinksLoadOrStore s.c.seenLinks (Normalize (some u2))
  if r.2 then s
  else
    { s with
      c := { s.c with seenLinks := r.1, totalLinks := s.c.totalLinks + 1 }
      spawned := s.spawned ++
        [{ page := base, u := u2,
           internal := s.c.Normalizer.IsInternal w.PublicSuffix (some u2),
           pageDepth := depth }] }

/-- The statements that register and send a newly discovered page: it is put
in `seenPages`, `discovered` grows, and the item is sent on `q`, which parks
the controller when the channel is full. -/
def enqueue (s : CrawlState) (depth : Int) (base : URL) (u2 : URL) (rest : List URL) :
    Outcome :=
  let s2 : CrawlState :=
    { s with
      c := { s.c with
             seenPages := seenPagesStore s.c.seenPages (Normalize (some u2)) (depth + 1) }
      discovered := s.discovered + 1 }
  if s2.q.length ≥ frontierCap then .blockedSend s2
  else
    .running { s2 with
      q := s2.q ++ [{ u := some u2, depth := depth + 1 }]
      sent := s2.sent ++ [{ u := some u2, depth := depth + 1 }]
      cur := some (depth, base, rest) }

/-- The body of `for _, u2 := range links` for one link `u2` of a page dequeued
at depth `depth` with base URL `base`; `rest` are the links after `u2`. -/
def stepLink (w : World) (s : CrawlState) (depth : Int) (base : URL) (u2 : URL)
    (rest : List URL) : Outcome :=
  let s1 := probeLink w s depth base u2
  if shouldVisit w.PublicSuffix s1.c u2 (depth + 1) then
    if s1.discovered ≥ s1.c.MaxURLs then .running { s1 with cur := some (depth, base, rest) }
    else enqueue s1 depth base u2 rest
  else .running { s1 with cur := some (depth, base, rest) }

/-- The `select` at the top of the loop and the statements up to the `for` over
the links: the `ctx.Done()` case returns, the receive parks when the channel is
empty, a nil item returns nil, and otherwise the page is fetched. -/
def stepSelect (w : World) (s : CrawlState) : Outcome :=
  if w.done s.visited.toNat then .returned (some ctxErr) s
  else
    match s.q with
    | [] => .blockedRecv s
    | it :: q =>
      match it.u with
      | none => .returned none { s with q := q, cur := none }
      | some u =>
        let s1 : CrawlState :=
          { s with q := q, visited := s.visited + 1, cur := none, fetched := s.fetched ++ [it] }
        match fetch w s.visited.toNat u with
        | .error err =>
          .running { s1 with
            sunk := s1.sunk ++
              [{ URL := u.String, PageURL := u.String, Internal := true, StatusCode := 0,
                 Err := err.msg, ElapsedMS := 0, Depth := it.depth }]
            errs := s1.errs + 1 }
        | .ok resp =>
          .running { s1 with cur := some (it.depth, resp.RequestURL, extractLinks resp) }

/-- One step of the loop of `Crawl`. -/
def step (w : World) (s : CrawlState) : Outcome :=
  match s.cur with
  | some (depth, base, u2 :: rest) => stepLink w s depth base u2 rest
  | _ => stepSelect w s

/-- At most `fuel` steps of the loop from the state `s`. -/
def runLoop (w : World) : Nat → CrawlState → Outcome
  | 0, s => .running s
  | fuel + 1, s =>
    match step w s with
    | .running s1 => runLoop w fuel s1
    | o => o

/-- The error `Crawl` returns when the start URL is not admitted. -/
def startNotAllowed : GoError := ⟨"start URL not allowed or already seen".toList, false⟩

/-- The state of `Crawl` at its first statement. -/
def entryState (c : Crawler) : CrawlState :=
  { c := c, q := [], visited := 0, discovered := 0, errs := 0, cur := none,
    sent := [], fetched := [], spawned := [], sunk := [] }

/-- The state of `Crawl` when it enters the loop, the start URL admitted. -/
def initState (c : Crawler) (start : URL) : CrawlState :=
  { c := { c with seenPages := seenPagesStore c.seenPages (Normalize (some start)) 0 }
    q := [{ u := some start, depth := 0 }]
    visited := 0, discovered := 1, errs := 0, cur := none
    sent := [{ u := some start, depth := 0 }]
    fetched := [], spawned := [], sunk := [] }

/-- The method `(*Crawler).Crawl`, run for at most `fuel` steps of its loop. -/
def Crawl (w : World) (c : Crawler) (start : URL) (fuel : Nat) : Outcome :=
  if !shouldVisit w.PublicSuffix c start 0 then .returned (some startNotAllowed) (entryState c)
  else runLoop w fuel (initState c start)

/-- Whether the outcome is a return of `Crawl`. -/
def Outcome.isReturned : Outcome → Bool
  | .returned _ _ => true
  | _ => false

/-- Whether the outcome is a return of `Crawl` with a nil error. -/
def Outcome.isReturnedNil : Outcome → Bool
  | .returned none _ => true
  | _ => false

/-- Whether the controller is parked on the receive from the empty channel. -/
def Outcome.isBlockedRecv : Outcome → Bool
  | .blockedRecv _ => true
  | _ => false

/-- The normalized URL of a frontier item. -/
def Item.norm (it : Item) : Str := Normalize it.u

/-- The normalized URL of the link of a probe. -/
def Probe.norm (p : Probe) : Str := Normalize (some p.u)

/-! ## Example sites -/

/-- The URL a text parses to (the empty URL when it does not parse). -/
def url (s : String) : URL := (Parse s.toList).getD {}

/-- A server for a fixed table of pages, each with the `href` values of its
anchors: a listed page is answered with status 200, any other request fails at
the network level. -/
def siteDo (pages : List (String × List String)) (_ : Nat) (s : Str) :
    Except GoError Response :=
  match pages.find? (fun p => p.1.toList = s) with
  | some p =>
    .ok { StatusCode := 200, RequestURL := (Parse s).getD {},
          hrefs := p.2.filterMap fun h => Parse h.toList }
  | none => .error ⟨"dial tcp: lookup failed".toList, true⟩

/-- A world with such a server, the suffix list without a matching rule, and a
context that is never cancelled. -/
def siteWorld (pages : List (String × List String)) : World :=
  { PublicSuffix := PublicSuffixStar, done := fun _ => false, doneInFetch := fun _ => false,
    Do := siteDo pages }

/-- The crawler `runJob` builds for a start URL and a depth, robots off. -/
def crawlerFor (start : String) (maxDepth : Int) : Crawler :=
  NewCrawler PublicSuffixStar (url start) maxDepth false
    (NewChecker "PulseLinkChecker/1.0 (+local)".toList)
    { allowed := true, rules := none, agent := [] }

/-- A site of one page without links. -/
def onePage : List (String × List String) := [("http://a.test/", [])]

/-- The site `/` -> `/about` -> `https://ext.test/x`. -/
def twoPages : List (String × List String) :=
  [("http://a.test/", ["http://a.test/about"]),
   ("http://a.test/about", ["https://ext.test/x"])]

/-- The site `/` -> `/b` -> `/c` -> `/d`. -/
def chain : List (String × List String) :=
  [("http://a.test/", ["http://a.test/b"]), ("http://a.test/b", ["http://a.test/c"]),
   ("http://a.test/c", ["http://a.test/d"])]

/-- A start page with the two links of the normalization example. -/
def dupLinks : List (String × List String) :=
  [("http://a.test/", ["http://A.test:80/x?utm_source=q&b=1#frag", "http://a.test/x?b=1"])]

/-- A probe environment in which every request is answered with status 200 and
the context is never cancelled. -/
def answers200 : ProbeEnv :=
  { Do := fun _ _ s => .ok { StatusCode := 200, RequestURL := (Parse s).getD {}, hrefs := [] }
    since := fun _ => 3
    doneAtJitter := false
    doneAtBackoff := false }

/-- The error of a call, if it returned one. -/
def errorOf {α : Type} (r : Except GoError α) : Option GoError :=
  match r with
  | .error err => some err
  | .ok _ => none

/-! ## Invariants of the loop -/

/-- The depth invariant of the frontier. -/
def DepthInv (maxDepth : Int) (start : URL) (s : CrawlState) : Prop :=
  s.c.MaxDepth = maxDepth ∧ 0 ≤ maxDepth ∧
  (∃ tl, s.sent = { u := some start, depth := 0 } :: tl ∧
    ∀ it ∈ tl, 1 ≤ it.depth ∧ it.depth ≤ maxDepth) ∧
  (∀ it ∈ s.q, it ∈ s.sent) ∧ (∀ it ∈ s.fetched, it ∈ s.sent) ∧
  s.fetched.length + s.q.length ≤ s.sent.length ∧
  (∀ d b l, s.cur = some (d, b, l) → 0 ≤ d)

/-- No nil item waits in the frontier. -/
def NoNilItem (s : CrawlState) : Prop := ∀ it ∈ s.q, it.u ≠ none

/-- The keys of `seenPages`. -/
def pageKeys (s : CrawlState) : List Str := s.c.seenPages.map Prod.fst

/-- The dedup invariant: the keys of each map are distinct, the items sent
have distinct normalized URLs, all of them keys of `seenPages`, and the probes
started have distinct normalized URLs, all of them in `seenLinks`. -/
def DedupInv (s : CrawlState) : Prop :=
  (pageKeys s).Nodup ∧ s.c.seenLinks.Nodup ∧
  (s.sent.map Item.norm).Nodup ∧ (∀ it ∈ s.sent, it.norm ∈ pageKeys s) ∧
  (s.spawned.map Probe.norm).Nodup ∧ (∀ p ∈ s.spawned, p.norm ∈ s.c.seenLinks)

/-- The cap invariant: `MaxURLs` keeps its value and bounds `discovered`. -/
def CapInv (maxURLs : Int) (s : CrawlState) : Prop :=
  s.c.MaxURLs = maxURLs ∧ s.discovered ≤ maxURLs

/-! ## Wide pages -/

/-- Whether the controller is parked on a send to the full channel. -/
def Outcome.isBlockedSend : Outcome → Bool
  | .blockedSend _ => true
  | _ => false

/-- The tests of `shouldVisit` that do not depend on the depth or on
`seenPages`: the scheme is http or https, the URL is internal, and the robots
rules, when they are respected, allow it. -/
def eligible (PublicSuffix : Str → Str) (c : Crawler) (u : URL) : Bool :=
  (decide (u.Scheme = "http".toList) || decide (u.Scheme = "https".toList)) &&
  c.Normalizer.IsInternal PublicSuffix (some u) &&
  !(c.RespectRobots && c.Robots.isSome && !Allowed c.Robots u)

/-- The link number `i` of a wide page: `http://a.test/a`, `http://a.test/aa`,
and so on, the path made of `i + 1` letters. -/
def wideLink (i : Nat) : URL :=
  { Scheme := "http".toList, Host := "a.test".toList, Path := '/' :: List.replicate (i + 1) 'a' }

/-- The links of a wide page with `n` links. -/
def wideLinks (n : Nat) : List URL := (List.range n).map wideLink

/-- The answer of the server to the request of a wide page. -/
def widePage (n : Nat) : Response :=
  { StatusCode := 200, RequestURL := url "http://a.test/", hrefs := wideLinks n }

/-- A world whose start page `http://a.test/` has `n` links to distinct pages
of the same site; the context is never cancelled. -/
def wideWorld (n : Nat) : World :=
  { PublicSuffix := PublicSuffixStar, done := fun _ => false, doneInFetch := fun _ => false,
    Do := fun _ s =>
      if s = "http://a.test/".toList then .ok (widePage n)
      else .error ⟨"dial tcp: lookup failed".toList, true⟩ }

/-! ## Normalisation -/

/-- C1: two URLs that differ only in a redundant `./` path segment normalize to
different strings when the path carries an escaped slash.  `Normalize` cleans
`Path` but leaves `RawPath`; `String` then prints the old `RawPath` when the
cleaning changed nothing and the default escaping of the cleaned `Path` when it
changed something.  The pair `http://A.test:80/x?utm_source=q&b=1#frag`,
`http://a.test/x?b=1` does agree, and a page with these two links gets one
probe. -/
theorem C1_normalize_redundant_segment_rawpath :
    Normalize (Parse "http://a.test/p%2Fq/./x".toList) = "http://a.test/p/q/x".toList ∧
    Normalize (Parse "http://a.test/p%2Fq/x".toList) = "http://a.test/p%2Fq/x".toList ∧
    Normalize (Parse "http://a.test/p%2Fq/./x".toList) ≠
      Normalize (Parse "http://a.test/p%2Fq/x".toList) ∧
    Normalize (Parse "http://A.test:80/x?utm_source=q&b=1#frag".toList) =
      Normalize (Parse "http://a.test/x?b=1".toList) ∧
    (Crawl (siteWorld dupLinks) (crawlerFor "http://a.test/" 0) (url "http://a.test/")
      10).state.spawned.length = 1 := by
  decide!

/-- C2: `Normalize` is not idempotent on a host that ends in two default
ports: the pattern `:(80|443)$` removes one of them on each pass. -/
theorem C2_normalize_not_idempotent_stacked_ports :
    Parse "http://a.test:80:443/".toList =
      some { Scheme := "http".toList, Host := "a.test:80:443".toList, Path := "/".toList } ∧
    Normalize (some { Scheme := "http".toList, Host := "a.test:80:443".toList,
                      Path := "/".toList }) = "http://a.test:80/".toList ∧
    Normalize (Parse (Normalize (some { Scheme := "http".toList,
                                        Host := "a.test:80:443".toList,
                                        Path := "/".toList }))) = "http://a.test/".toList := by
  decide!

/-- C3: `Normalize` strips `:80` from an https URL (and `:443` from an http
URL): the https URL on port 80 and the same URL without a port get the same
normalized form. -/
theorem C3_normalize_strips_foreign_default_port :
    Normalize (Parse "https://a.test:80/x".toList) = "https://a.test/x".toList ∧
    Normalize (Parse "https://a.test/x".toList) = "https://a.test/x".toList ∧
    Normalize (Parse "http://a.test:443/x".toList) = "http://a.test/x".toList ∧
    Normalize (Parse "http://a.test:8080/x".toList) = "http://a.test:8080/x".toList := by
  decide!

/-! ## Probes -/

/-- C5: the probe of a link to a loopback address is not blocked: on a network
that answers the request with status 200, the record `checkLinkAndSink` emits
for `http://127.0.0.1:9000/` has status 200 and no error text, although
`isPrivateHost` holds for the link and `fetch` refuses the same URL. -/
theorem C5_probe_of_private_host_not_blocked :
    isPrivateHost (url "http://127.0.0.1:9000/") = true ∧
    (checkLinkAndSink answers200 (url "http://a.test/") (url "http://127.0.0.1:9000/")
      false).StatusCode = 200 ∧
    (checkLinkAndSink answers200 (url "http://a.test/") (url "http://127.0.0.1:9000/")
      false).Err = [] ∧
    errorOf (fetch (siteWorld onePage) 0 (url "http://127.0.0.1:9000/")) =
      some ⟨blockedMsg, false⟩ := by
  decide!

/-! ## Runs of the loop -/

/-- A property of states that every step keeps holds along every run. -/
theorem runLoop_preserves (w : World) (P : CrawlState → Prop)
    (hstep : ∀ s, P s → P (step w s).state) :
    ∀ (fuel : Nat) (s : CrawlState), P s → P (runLoop w fuel s).state := by
  intro fuel
  induction fuel with
  | zero => intro s h; exact h
  | succ n ih =>
    intro s h
    have h1 := hstep s h
    unfold runLoop
    cases hs : step w s with
    | running s1 =>
      rw [hs] at h1
      exact ih s1 h1
    | returned err s1 => rw [hs] at h1; exact h1
    | blockedRecv s1 => rw [hs] at h1; exact h1
    | blockedSend s1 => rw [hs] at h1; exact h1

/-- The fields `probeLink` leaves alone. -/
theorem probeLink_frame (w : World) (s : CrawlState) (d : Int) (b u : URL) :
    (probeLink w s d b u).q = s.q ∧ (probeLink w s d b u).sent = s.sent ∧
    (probeLink w s d b u).fetched = s.fetched ∧
    (probeLink w s d b u).discovered = s.discovered ∧
    (probeLink w s d b u).c.seenPages = s.c.seenPages ∧
    (probeLink w s d b u).c.MaxDepth = s.c.MaxDepth ∧
    (probeLink w s d b u).c.MaxURLs = s.c.MaxURLs ∧
    (probeLink w s d b u).cur = s.cur := by
  by_cases h : (seenLinksLoadOrStore s.c.seenLinks (Normalize (some u))).2 = true <;>
    simp [probeLink, h]

/-- An admitted URL is within the depth bound. -/
theorem shouldVisit_depth (ps : Str → Str) (c : Crawler) (u : URL) (d : Int)
    (h : shouldVisit ps c u d = true) : d ≤ c.MaxDepth := by
  unfold shouldVisit at h
  by_contra hd
  rw [if_pos (by omega)] at h
  exact Bool.false_ne_true h

/-- An admitted URL is not in `seenPages`. -/
theorem shouldVisit_unseen (ps : Str → Str) (c : Crawler) (u : URL) (d : Int)
    (h : shouldVisit ps c u d = true) : seenPagesLoad c.seenPages (Normalize (some u)) = false := by
  unfold shouldVisit at h
  split_ifs at h
  simp_all

theorem DepthInv_item {maxDepth : Int} {start : URL} {s : CrawlState}
    (h : DepthInv maxDepth start s) {it : Item} (hit : it ∈ s.sent) :
    0 ≤ it.depth ∧ it.depth ≤ maxDepth := by
  obtain ⟨_, h0, ⟨tl, hs, htl⟩, _⟩ := h
  rw [hs] at hit
  rcases List.mem_cons.1 hit with rfl | hmem
  · exact ⟨le_refl _, h0⟩
  · have := htl it hmem
    omega

theorem stepLink_DepthInv (w : World) (maxDepth : Int) (start : URL) (s : CrawlState)
    (d : Int) (b u : URL) (rest : List URL) (hd : 0 ≤ d)
    (h : DepthInv maxDepth start s) : DepthInv maxDepth start (stepLink w s d b u rest).state := by
  obtain ⟨hq, hs, hf, hdisc, hsp, hmd, hmu, hcur⟩ := probeLink_frame w s d b u
  obtain ⟨h1, h2, ⟨tl, h3, h3b⟩, h4, h5, h6, h7⟩ := h
  have keep : DepthInv maxDepth start { probeLink w s d b u with cur := some (d, b, rest) } := by
    refine ⟨by simpa [hmd] using h1, h2, ⟨tl, by simpa [hs] using h3, h3b⟩, ?_, ?_, ?_, ?_⟩
    · simpa [hq, hs] using h4
    · simpa [hf, hs] using h5
    · simpa [hq, hs, hf] using h6
    · intro d1 b1 l1 hc
      simp at hc
      omega
  unfold stepLink
  simp only
  split_ifs with hv hcap
  · exact keep
  · have hle := shouldVisit_depth _ _ _ _ hv
    rw [hmd, h1] at hle
    unfold enqueue
    simp only
    split_ifs with hfull
    · refine ⟨by simpa [hmd] using h1, h2, ⟨tl, by simpa [hs] using h3, h3b⟩, ?_, ?_, ?_, ?_⟩
      · simpa [hq, hs] using h4
      · simpa [hf, hs] using h5
      · simpa [hq, hs, hf] using h6
      · simpa [Outcome.state, hcur] using h7
    · refine ⟨by simpa [hmd] using h1, h2, ⟨tl ++ [{ u := some u, depth := d + 1 }], ?_, ?_⟩,
        ?_, ?_, ?_, ?_⟩
      · simp [Outcome.state, hs, h3]
      · intro it hit
        rcases List.mem_append.1 hit with hit | hit
        · exact h3b it hit
        · simp at hit
          subst hit
          simp
          omega
      · intro it hit
        simp [Outcome.state, hq, hs] at hit ⊢
        rcases hit with hit | hit
        · exact Or.inl (h4 it hit)
        · exact Or.inr hit
      · intro it hit
        simp [Outcome.state, hf, hs] at hit ⊢
        exact Or.inl (h5 it hit)
      · simp [Outcome.state, hq, hs, hf]
        omega
      · intro d1 b1 l1 hc
        simp [Outcome.state] at hc
        omega
  · exact keep


theorem stepSelect_DepthInv (w : World) (maxDepth : Int) (start : URL) (s : CrawlState)
    (h : DepthInv maxDepth start s) : DepthInv maxDepth start (stepSelect w s).state := by
  obtain ⟨h1, h2, ⟨tl, h3, h3b⟩, h4, h5, h6, h7⟩ := h
  unfold stepSelect
  split_ifs with hdone
  · exact ⟨h1, h2, ⟨tl, h3, h3b⟩, h4, h5, h6, h7⟩
  · cases hq : s.q with
    | nil =>
      simp only [Outcome.state]
      exact ⟨h1, h2, ⟨tl, h3, h3b⟩, h4, h5, h6, h7⟩
    | cons it q =>
      rw [hq] at h4 h6
      have hit : it ∈ s.sent := h4 it (List.mem_cons_self _ _)
      have hdep : 0 ≤ it.depth := by
        rw [h3] at hit
        rcases List.mem_cons.1 hit with rfl | hmem
        · exact le_refl _
        · have := h3b it hmem
          omega
      have hq4 : ∀ x ∈ q, x ∈ s.sent := fun x hx => h4 x (List.mem_cons_of_mem _ hx)
      have hf5 : ∀ x ∈ s.fetched ++ [it], x ∈ s.sent := by
        intro x hx
        rcases List.mem_append.1 hx with hx | hx
        · exact h5 x hx
        · simp at hx
          subst hx
          exact hit
      have hlen : (s.fetched ++ [it]).length + q.length ≤ s.sent.length := by
        simp at h6 ⊢
        omega
      dsimp only
      cases hu : it.u with
      | none =>
        simp only [Outcome.state]
        refine ⟨h1, h2, ⟨tl, h3, h3b⟩, hq4, h5, ?_, ?_⟩
        · simp at h6 ⊢
          omega
        · intro d b l hc
          simp at hc
      | some u =>
        simp only
        cases hfetch : fetch w s.visited.toNat u with
        | error err =>
          simp only [Outcome.state]
          refine ⟨h1, h2, ⟨tl, h3, h3b⟩, hq4, hf5, hlen, ?_⟩
          intro d b l hc
          simp at hc
        | ok resp =>
          simp only [Outcome.state]
          refine ⟨h1, h2, ⟨tl, h3, h3b⟩, hq4, hf5, hlen, ?_⟩
          intro d b l hc
          simp at hc
          omega

theorem step_DepthInv (w : World) (maxDepth : Int) (start : URL) (s : CrawlState)
    (h : DepthInv maxDepth start s) : DepthInv maxDepth start (step w s).state := by
  unfold step
  split
  · next d b u rest hc =>
    exact stepLink_DepthInv w maxDepth start s d b u rest (h.2.2.2.2.2.2 d b (u :: rest) hc) h
  · exact stepSelect_DepthInv w maxDepth start s h

theorem initState_DepthInv (c : Crawler) (start : URL) (h0 : 0 ≤ c.MaxDepth) :
    DepthInv c.MaxDepth start (initState c start) := by
  refine ⟨rfl, h0, ⟨[], rfl, by simp⟩, ?_, ?_, ?_, ?_⟩ <;> simp [initState]

/-- C10: every item ever sent on the frontier channel has a depth between 0 and
`MaxDepth`; with `MaxDepth = 0` no item other than the start is ever sent, and
no page other than the start is ever fetched (there is at most one fetch). -/
theorem C10_frontier_depth_bound (w : World) (c : Crawler) (start : URL) (fuel : Nat) :
    (∀ it ∈ (Crawl w c start fuel).state.sent, 0 ≤ it.depth ∧ it.depth ≤ c.MaxDepth) ∧
    (c.MaxDepth = 0 →
      (∀ it ∈ (Crawl w c start fuel).state.sent, it = { u := some start, depth := 0 }) ∧
      (Crawl w c start fuel).state.sent.length ≤ 1 ∧
      (∀ it ∈ (Crawl w c start fuel).state.fetched, it = { u := some start, depth := 0 }) ∧
      (Crawl w c start fuel).state.fetched.length ≤ 1) := by
  unfold Crawl
  by_cases hv : shouldVisit w.PublicSuffix c start 0 = true
  · have h0 : 0 ≤ c.MaxDepth := shouldVisit_depth _ _ _ _ hv
    have hinv := runLoop_preserves w (DepthInv c.MaxDepth start)
      (step_DepthInv w c.MaxDepth start) fuel (initState c start) (initState_DepthInv c start h0)
    simp only [hv, Bool.not_true, Bool.false_eq_true, if_false]
    refine ⟨fun it hit => DepthInv_item hinv hit, ?_⟩
    intro hz
    obtain ⟨_, _, ⟨tl, hs, htl⟩, _, h5, h6, _⟩ := hinv
    have htl0 : tl = [] := by
      cases tl with
      | nil => rfl
      | cons x xs =>
        have := htl x (List.mem_cons_self _ _)
        omega
    subst htl0
    have hmem : ∀ it ∈ (runLoop w fuel (initState c start)).state.sent,
        it = { u := some start, depth := 0 } := by
      intro it hit
      rw [hs] at hit
      simpa using hit
    refine ⟨hmem, by rw [hs]; simp, fun it hit => hmem it (h5 it hit), ?_⟩
    rw [hs] at h6
    simp at h6
    omega
  · simp [hv, Outcome.state, entryState]

/-- With `MaxDepth = 0` the crawl of the site `/` -> `/about` sends the start
item only, although the start page has a link to an internal page. -/
theorem C10_frontier_depth_bound_witness :
    (crawlerFor "http://a.test/" 0).MaxDepth = 0 ∧
    (Crawl (siteWorld twoPages) (crawlerFor "http://a.test/" 0) (url "http://a.test/")
      10).state.sent.length ≤ 1 ∧
    (Crawl (siteWorld twoPages) (crawlerFor "http://a.test/" 0) (url "http://a.test/")
      10).state.fetched.length ≤ 1 ∧
    (Crawl (siteWorld twoPages) (crawlerFor "http://a.test/" 0) (url "http://a.test/")
      10).state.spawned.length = 1 :=
  ⟨rfl,
   ((C10_frontier_depth_bound (siteWorld twoPages) (crawlerFor "http://a.test/" 0)
      (url "http://a.test/") 10).2 rfl).2.1,
   ((C10_frontier_depth_bound (siteWorld twoPages) (crawlerFor "http://a.test/" 0)
      (url "http://a.test/") 10).2 rfl).2.2.2,
   by decide!⟩

/-! ## Termination of the loop -/

theorem stepLink_NoNilItem (w : World) (s : CrawlState) (d : Int) (b u : URL)
    (rest : List URL) (h : NoNilItem s) : NoNilItem (stepLink w s d b u rest).state := by
  obtain ⟨hq, -⟩ := probeLink_frame w s d b u
  unfold stepLink
  simp only
  split_ifs with hv hcap
  · intro it hit
    exact h it (by simpa [Outcome.state, hq] using hit)
  · unfold enqueue
    simp only
    split_ifs with hfull
    · intro it hit
      exact h it (by simpa [Outcome.state, hq] using hit)
    · intro it hit
      simp [Outcome.state, hq] at hit
      rcases hit with hit | hit
      · exact h it hit
      · subst hit
        simp
  · intro it hit
    exact h it (by simpa [Outcome.state, hq] using hit)

theorem stepLink_not_returned (w : World) (s : CrawlState) (d : Int) (b u : URL)
    (rest : List URL) : (stepLink w s d b u rest).isReturned = false := by
  unfold stepLink
  simp only
  split_ifs with hv hcap
  · rfl
  · unfold enqueue
    simp only
    split_ifs <;> rfl
  · rfl

theorem stepSelect_NoNilItem (w : World) (s : CrawlState) (h : NoNilItem s) :
    NoNilItem (stepSelect w s).state := by
  unfold stepSelect
  split_ifs with hdone
  · exact h
  · cases hq : s.q with
    | nil => simpa [Outcome.state] using h
    | cons it q =>
      have hq4 : ∀ x ∈ q, x.u ≠ none := fun x hx => h x (by rw [hq]; exact List.mem_cons_of_mem _ hx)
      dsimp only
      cases hu : it.u with
      | none => exact hq4
      | some u =>
        dsimp only
        cases hfetch : fetch w s.visited.toNat u with
        | error err => exact hq4
        | ok resp => exact hq4

theorem stepSelect_not_returned (w : World) (s : CrawlState) (hnc : ∀ i, w.done i = false)
    (h : NoNilItem s) : (stepSelect w s).isReturned = false := by
  unfold stepSelect
  rw [hnc]
  simp only [Bool.false_eq_true, if_false]
  cases hq : s.q with
  | nil => rfl
  | cons it q =>
    dsimp only
    cases hu : it.u with
    | none => exact absurd hu (h it (by rw [hq]; exact List.mem_cons_self _ _))
    | some u =>
      dsimp only
      cases hfetch : fetch w s.visited.toNat u <;> rfl

theorem step_NoNilItem (w : World) (s : CrawlState) (h : NoNilItem s) :
    NoNilItem (step w s).state := by
  unfold step
  split
  · exact stepLink_NoNilItem w s _ _ _ _ h
  · exact stepSelect_NoNilItem w s h

theorem step_not_returned (w : World) (s : CrawlState) (hnc : ∀ i, w.done i = false)
    (h : NoNilItem s) : (step w s).isReturned = false := by
  unfold step
  split
  · exact stepLink_not_returned w s _ _ _ _
  · exact stepSelect_not_returned w s hnc h

theorem runLoop_not_returned (w : World) (hnc : ∀ i, w.done i = false) :
    ∀ (fuel : Nat) (s : CrawlState), NoNilItem s → (runLoop w fuel s).isReturned = false := by
  intro fuel
  induction fuel with
  | zero => intro s _; rfl
  | succ n ih =>
    intro s h
    have h1 := step_NoNilItem w s h
    have h2 := step_not_returned w s hnc h
    unfold runLoop
    cases hs : step w s with
    | running s1 =>
      rw [hs] at h1
      exact ih s1 h1
    | returned err s1 => rw [hs] at h2; exact absurd h2 (by simp [Outcome.isReturned])
    | blockedRecv s1 => rfl
    | blockedSend s1 => rfl

/-- C6: a run of `Crawl` that is never cancelled and whose start URL is admitted
never returns, whatever the number of steps: nothing closes the channel or
sends a nil item, so the `return nil` of the loop is never reached; and at the
top of the loop with an empty frontier the controller is parked on the receive
for ever. -/
theorem C6_crawl_never_returns (w : World) (c : Crawler) (start : URL) (fuel : Nat)
    (hadm : shouldVisit w.PublicSuffix c start 0 = true) (hnc : ∀ i, w.done i = false) :
    (Crawl w c start fuel).isReturned = false ∧
    ∀ s : CrawlState, s.q = [] → (∀ d b l, s.cur = some (d, b, l) → l = []) →
      (step w s).isBlockedRecv = true := by
  constructor
  · unfold Crawl
    simp only [hadm, Bool.not_true, Bool.false_eq_true, if_false]
    apply runLoop_not_returned w hnc
    intro it hit
    simp [initState] at hit
    subst hit
    simp
  · intro s hq hcur
    have hsel : stepSelect w s = Outcome.blockedRecv s := by
      unfold stepSelect
      simp only [hnc, hq, Bool.false_eq_true, if_false]
    unfold step
    split
    · next d b u rest hc => exact absurd (hcur d b _ hc) (by simp)
    · rw [hsel]
      rfl

/-- A one-page site without links: the never-cancelled crawl does not return,
and after the page is processed the controller is parked on the receive. -/
theorem C6_crawl_never_returns_witness :
    shouldVisit (siteWorld onePage).PublicSuffix (crawlerFor "http://a.test/" 2)
      (url "http://a.test/") 0 = true ∧
    (Crawl (siteWorld onePage) (crawlerFor "http://a.test/" 2) (url "http://a.test/")
      10).isReturned = false ∧
    (Crawl (siteWorld onePage) (crawlerFor "http://a.test/" 2) (url "http://a.test/")
      10).isBlockedRecv = true :=
  ⟨by decide!,
   (C6_crawl_never_returns (siteWorld onePage) (crawlerFor "http://a.test/" 2)
      (url "http://a.test/") 10 (by decide!) (fun _ => rfl)).1,
   by decide!⟩

/-! ## The depth of a link record -/

/-- C7: the record `checkLinkAndSink` passes to the sink has `Depth = 0`
whatever the page it was found on; in the crawl of the site
`/` -> `/b` -> `/c` -> `/d` the probes are started on pages of depth 0, 1 and
2, and each of their records has depth 0. -/
theorem C7_link_record_depth_is_zero :
    (∀ (env : ProbeEnv) (page u : URL) (internal : Bool),
      (checkLinkAndSink env page u internal).Depth = 0) ∧
    (Crawl (siteWorld chain) (crawlerFor "http://a.test/" 5) (url "http://a.test/")
      20).state.spawned.map (fun p =>
        (p.u.String, p.pageDepth, (checkLinkAndSink answers200 p.page p.u p.internal).Depth)) =
      [("http://a.test/b".toList, 0, 0), ("http://a.test/c".toList, 1, 0),
       ("http://a.test/d".toList, 2, 0)] := by
  refine ⟨fun _ _ _ _ => rfl, ?_⟩
  decide!

/-! ## The start URL and the internal scope -/

theorem lowerByte_idem (c : Char) : lowerByte (lowerByte c) = lowerByte c := by
  by_cases h : 'A' ≤ c ∧ c ≤ 'Z'
  · have h1 : 65 ≤ c.toNat := h.1
    have h2 : c.toNat ≤ 90 := h.2
    have hc : c = Char.ofNat c.toNat := (Char.ofNat_toNat c).symm
    generalize c.toNat = n at h1 h2 hc
    subst hc
    interval_cases n <;> decide
  · unfold lowerByte
    rw [if_neg h, if_neg h]

theorem ToLower_idem (s : Str) : ToLower (ToLower s) = ToLower s := by
  unfold ToLower
  rw [List.map_map]
  apply List.map_congr_left
  intro c _
  exact lowerByte_idem c

/-- C4: the start URL is internal exactly when the public-suffix lookup of its
hostname succeeds (hostnames being ASCII).  When the lookup fails `NewDomainNormalizer` falls back to
the literal hostname, but `IsInternal` returns false on the same failure: for
`http://localhost/` the root is `localhost`, the start is not internal, and
`Crawl` refuses it. -/
theorem C4_start_internal_iff_lookup_succeeds :
    (∀ (ps : Str → Str) (start : URL),
      (NewDomainNormalizer ps start).IsInternal ps (some start) =
        (EffectiveTLDPlusOne ps start.Hostname).isSome) ∧
    (url "http://localhost/").Hostname = "localhost".toList ∧
    EffectiveTLDPlusOne PublicSuffixStar "localhost".toList = none ∧
    (NewDomainNormalizer PublicSuffixStar (url "http://localhost/")).rootETLD1 =
      "localhost".toList ∧
    (NewDomainNormalizer PublicSuffixStar (url "http://localhost/")).IsInternal
      PublicSuffixStar (some (url "http://localhost/")) = false ∧
    (Crawl (siteWorld onePage) (crawlerFor "http://localhost/" 2) (url "http://localhost/")
      10).isReturned = true := by
  refine ⟨?_, by decide!, by decide!, by decide!, by decide!, by decide!⟩
  intro ps start
  unfold DomainNormalizer.IsInternal NewDomainNormalizer
  cases h : EffectiveTLDPlusOne ps start.Hostname with
  | none => simp [h]
  | some e => simp [h, EqualFold, ToLower_idem]

/-! ## The cap on discovered pages -/

theorem stepLink_CapInv (w : World) (m : Int) (s : CrawlState) (d : Int) (b u : URL)
    (rest : List URL) (h : CapInv m s) : CapInv m (stepLink w s d b u rest).state := by
  obtain ⟨-, -, -, hdisc, -, -, hmu, -⟩ := probeLink_frame w s d b u
  obtain ⟨h1, h2⟩ := h
  unfold stepLink
  simp only
  split_ifs with hv hcap
  · exact ⟨by simpa [Outcome.state, hmu] using h1, by simpa [Outcome.state, hdisc] using h2⟩
  · rw [hdisc, hmu, h1] at hcap
    unfold enqueue
    simp only
    split_ifs with hfull
    · refine ⟨by simpa [Outcome.state, hmu] using h1, ?_⟩
      simp only [Outcome.state, hdisc]
      omega
    · refine ⟨by simpa [Outcome.state, hmu] using h1, ?_⟩
      simp only [Outcome.state, hdisc]
      omega
  · exact ⟨by simpa [Outcome.state, hmu] using h1, by simpa [Outcome.state, hdisc] using h2⟩

theorem stepSelect_CapInv (w : World) (m : Int) (s : CrawlState) (h : CapInv m s) :
    CapInv m (stepSelect w s).state := by
  unfold stepSelect
  split_ifs with hdone
  · exact h
  · cases hq : s.q with
    | nil => exact h
    | cons it q =>
      dsimp only
      cases hu : it.u with
      | none => exact h
      | some u =>
        dsimp only
        cases hfetch : fetch w s.visited.toNat u with
        | error err => exact h
        | ok resp => exact h

theorem step_CapInv (w : World) (m : Int) (s : CrawlState) (h : CapInv m s) :
    CapInv m (step w s).state := by
  unfold step
  split
  · exact stepLink_CapInv w m s _ _ _ _ h
  · exact stepSelect_CapInv w m s h

/-- C9: in every run of `Crawl` on a crawler built by `NewCrawler`, `MaxURLs`
is 2000 and `discovered` never exceeds it; and a link met when `discovered`
has reached `MaxURLs` changes neither `seenPages`, nor the frontier, nor
`discovered`. -/
theorem C9_discovered_at_most_max_urls (ps : Str → Str) (start0 : URL) (maxDepth : Int)
    (respectRobots : Bool) (checker : Checker) (robots : RobotsGuard)
    (w : World) (start : URL) (fuel : Nat) :
    (NewCrawler ps start0 maxDepth respectRobots checker robots).MaxURLs = 2000 ∧
    (Crawl w (NewCrawler ps start0 maxDepth respectRobots checker robots) start
      fuel).state.discovered ≤ 2000 ∧
    ∀ (s : CrawlState) (d : Int) (b u : URL) (rest : List URL),
      s.c.MaxURLs ≤ s.discovered →
      (stepLink w s d b u rest).state.c.seenPages = s.c.seenPages ∧
      (stepLink w s d b u rest).state.q = s.q ∧
      (stepLink w s d b u rest).state.sent = s.sent ∧
      (stepLink w s d b u rest).state.discovered = s.discovered := by
  refine ⟨rfl, ?_, ?_⟩
  · unfold Crawl
    split_ifs with hv
    · simp [Outcome.state, entryState]
    · exact (runLoop_preserves w (CapInv 2000) (step_CapInv w 2000) fuel _
        ⟨rfl, by simp [initState]⟩).2
  · intro s d b u rest hcap
    obtain ⟨hq, hs, -, hdisc, hsp, -, hmu, -⟩ := probeLink_frame w s d b u
    unfold stepLink
    simp only
    split_ifs with hv hge
    · simp [Outcome.state, hq, hs, hdisc, hsp]
    · rw [hdisc, hmu] at hge
      exact absurd hcap hge
    · simp [Outcome.state, hq, hs, hdisc, hsp]

/-- The cap at work on a crawler whose `MaxURLs` is 1: on the site
`/` -> `/about`, when the link `/about` is met `discovered` is already 1, and
the link is probed but neither stored nor sent. -/
theorem C9_discovered_at_most_max_urls_witness :
    (Crawl (siteWorld twoPages) { crawlerFor "http://a.test/" 2 with MaxURLs := 1 }
      (url "http://a.test/") 1).state.c.MaxURLs ≤
    (Crawl (siteWorld twoPages) { crawlerFor "http://a.test/" 2 with MaxURLs := 1 }
      (url "http://a.test/") 1).state.discovered ∧
    (stepLink (siteWorld twoPages)
      (Crawl (siteWorld twoPages) { crawlerFor "http://a.test/" 2 with MaxURLs := 1 }
        (url "http://a.test/") 1).state 0 (url "http://a.test/") (url "http://a.test/about")
      []).state.sent =
    (Crawl (siteWorld twoPages) { crawlerFor "http://a.test/" 2 with MaxURLs := 1 }
      (url "http://a.test/") 1).state.sent ∧
    (Crawl (siteWorld twoPages) (crawlerFor "http://a.test/" 2) (url "http://a.test/")
      10).state.discovered ≤ 2000 :=
  ⟨by decide!,
   ((C9_discovered_at_most_max_urls PublicSuffixStar (url "http://a.test/") 2 false
      (NewChecker []) { allowed := true, rules := none, agent := [] } (siteWorld twoPages)
      (url "http://a.test/") 0).2.2 _ 0 (url "http://a.test/") (url "http://a.test/about") []
      (by decide!)).2.2.1,
   (C9_discovered_at_most_max_urls PublicSuffixStar (url "http://a.test/") 2 false
      (NewChecker "PulseLinkChecker/1.0 (+local)".toList)
      { allowed := true, rules := none, agent := [] } (siteWorld twoPages)
      (url "http://a.test/") 10).2.1⟩

/-! ## Deduplication -/

theorem seenPagesLoad_iff (m : List (Str × Int)) (k : Str) :
    seenPagesLoad m k = true ↔ k ∈ m.map Prod.fst := by
  unfold seenPagesLoad
  simp only [List.any_eq_true, decide_eq_true_eq, List.mem_map]

theorem seenPagesStore_keys (m : List (Str × Int)) (k : Str) (d : Int) :
    (seenPagesStore m k d).map Prod.fst =
      if k ∈ m.map Prod.fst then m.map Prod.fst else m.map Prod.fst ++ [k] := by
  unfold seenPagesStore
  by_cases h : seenPagesLoad m k = true
  · rw [if_pos h, if_pos ((seenPagesLoad_iff m k).1 h), List.map_map]
    apply List.map_congr_left
    intro p _
    by_cases hp : p.1 = k <;> simp [hp]
  · have h2 : ¬ k ∈ m.map Prod.fst := fun hk => h ((seenPagesLoad_iff m k).2 hk)
    rw [if_neg h, if_neg h2]
    simp

theorem filter_length_le_one_of_nodup {α : Type} (f : α → Str) (l : List α)
    (h : (l.map f).Nodup) (n : Str) : (l.filter (fun x => f x = n)).length ≤ 1 := by
  induction l with
  | nil => simp
  | cons a l ih =>
    rw [List.map_cons, List.nodup_cons] at h
    by_cases ha : f a = n
    · have hnone : l.filter (fun x => decide (f x = n)) = [] := by
        rw [List.filter_eq_nil_iff]
        intro x hx hfx
        simp at hfx
        apply h.1
        rw [ha, ← hfx]
        exact List.mem_map_of_mem f hx
      rw [List.filter_cons_of_pos (by simpa using ha), hnone]
      simp
    · rw [List.filter_cons_of_neg (by simpa using ha)]
      exact ih h.2

theorem nodup_append_singleton {α : Type} (l : List α) (a : α) (h : l.Nodup) (ha : a ∉ l) :
    (l ++ [a]).Nodup := by
  rw [List.nodup_append]
  refine ⟨h, List.nodup_singleton a, ?_⟩
  intro x hx hx2
  simp at hx2
  subst hx2
  exact ha hx

theorem probeLink_DedupInv (w : World) (s : CrawlState) (d : Int) (b u : URL)
    (h : DedupInv s) : DedupInv (probeLink w s d b u) := by
  obtain ⟨h1, h2, h3, h4, h5, h6⟩ := h
  unfold probeLink seenLinksLoadOrStore
  by_cases hm : Normalize (some u) ∈ s.c.seenLinks
  · simp only [hm, if_true]
    exact ⟨h1, h2, h3, h4, h5, h6⟩
  · simp only [hm, if_false, Bool.false_eq_true]
    refine ⟨h1, nodup_append_singleton _ _ h2 hm, h3, h4, ?_, ?_⟩
    · rw [List.map_append]
      apply nodup_append_singleton _ _ h5
      intro hmem
      obtain ⟨p, hp, hpn⟩ := List.mem_map.1 hmem
      apply hm
      have := h6 p hp
      rw [hpn] at this
      exact this
    · intro p hp
      rcases List.mem_append.1 hp with hp | hp
      · exact List.mem_append_left _ (h6 p hp)
      · simp at hp
        subst hp
        simp [Probe.norm]

theorem withCur_DedupInv (s : CrawlState) (x : Option (Int × URL × List URL))
    (h : DedupInv s) : DedupInv { s with cur := x } := h

theorem stepLink_DedupInv (w : World) (s : CrawlState) (d : Int) (b u : URL)
    (rest : List URL) (h : DedupInv s) : DedupInv (stepLink w s d b u rest).state := by
  have hp := probeLink_DedupInv w s d b u h
  unfold stepLink
  simp only
  split_ifs with hv hcap
  · exact hp
  · have hun := shouldVisit_unseen _ _ _ _ hv
    have hnot : Normalize (some u) ∉ (probeLink w s d b u).c.seenPages.map Prod.fst := by
      intro hk
      rw [(seenPagesLoad_iff _ _).2 hk] at hun
      exact Bool.noConfusion hun
    obtain ⟨h1, h2, h3, h4, h5, h6⟩ := hp
    have hkeys : ∀ x : CrawlState,
        x.c.seenPages = seenPagesStore (probeLink w s d b u).c.seenPages
          (Normalize (some u)) (d + 1) →
        pageKeys x = pageKeys (probeLink w s d b u) ++ [Normalize (some u)] := by
      intro x hx
      unfold pageKeys
      rw [hx, seenPagesStore_keys, if_neg hnot]
    unfold enqueue
    simp only
    split_ifs with hfull
    · refine ⟨?_, h2, h3, ?_, h5, h6⟩
      · rw [Outcome.state, hkeys _ rfl]
        exact nodup_append_singleton _ _ h1 hnot
      · intro it hit
        rw [Outcome.state, hkeys _ rfl]
        exact List.mem_append_left _ (h4 it hit)
    · refine ⟨?_, h2, ?_, ?_, h5, h6⟩
      · rw [Outcome.state, hkeys _ rfl]
        exact nodup_append_singleton _ _ h1 hnot
      · simp only [Outcome.state]
        rw [List.map_append]
        apply nodup_append_singleton _ _ h3
        intro hmem
        obtain ⟨it, hit, hin⟩ := List.mem_map.1 hmem
        apply hnot
        have := h4 it hit
        rw [hin] at this
        exact this
      · intro it hit
        rw [Outcome.state, hkeys _ rfl]
        simp only [Outcome.state] at hit
        rcases List.mem_append.1 hit with hit | hit
        · exact List.mem_append_left _ (h4 it hit)
        · simp at hit
          subst hit
          simp [Item.norm]
  · exact hp

theorem stepSelect_DedupInv (w : World) (s : CrawlState) (h : DedupInv s) :
    DedupInv (stepSelect w s).state := by
  unfold stepSelect
  split_ifs with hdone
  · exact h
  · cases hq : s.q with
    | nil => exact h
    | cons it q =>
      dsimp only
      cases hu : it.u with
      | none => exact h
      | some u =>
        dsimp only
        cases hfetch : fetch w s.visited.toNat u with
        | error err => exact h
        | ok resp => exact h

theorem step_DedupInv (w : World) (s : CrawlState) (h : DedupInv s) :
    DedupInv (step w s).state := by
  unfold step
  split
  · exact stepLink_DedupInv w s _ _ _ _ h
  · exact stepSelect_DedupInv w s h

theorem Crawl_DedupInv (w : World) (c : Crawler) (start : URL) (fuel : Nat)
    (hp : (c.seenPages.map Prod.fst).Nodup) (hl : c.seenLinks.Nodup) :
    DedupInv (Crawl w c start fuel).state := by
  unfold Crawl
  by_cases hv : shouldVisit w.PublicSuffix c start 0 = true
  · simp only [hv, Bool.not_true, Bool.false_eq_true, if_false]
    apply runLoop_preserves w DedupInv (step_DedupInv w)
    have hun := shouldVisit_unseen _ _ _ _ hv
    have hnot : Normalize (some start) ∉ c.seenPages.map Prod.fst := by
      intro hk
      rw [(seenPagesLoad_iff _ _).2 hk] at hun
      exact Bool.noConfusion hun
    have hkeys : pageKeys (initState c start) =
        c.seenPages.map Prod.fst ++ [Normalize (some start)] := by
      unfold pageKeys initState
      simp only
      rw [seenPagesStore_keys, if_neg hnot]
    refine ⟨?_, hl, by simp [initState], ?_, by simp [initState], by simp [initState]⟩
    · rw [hkeys]
      exact nodup_append_singleton _ _ hp hnot
    · intro it hit
      rw [hkeys]
      simp [initState] at hit
      subst hit
      simp [Item.norm]
  · simp only [hv, Bool.not_false, if_true, Outcome.state]
    exact ⟨hp, hl, by simp [entryState], by simp [entryState], by simp [entryState],
      by simp [entryState]⟩

/-- C8: in every run of `Crawl` (on a crawler whose two maps hold each key
once, as maps do), for every normalized URL `n` at most one item that
normalizes to `n` is ever sent on the frontier, at most one probe is ever
started for a link that normalizes to `n`, and `seenPages` and `seenLinks`
each hold `n` at most once; the two sets are separate: there is a run in which
one URL is both sent once and probed once. -/
theorem C8_enqueued_and_probed_at_most_once (w : World) (c : Crawler) (start : URL)
    (fuel : Nat) (hp : (c.seenPages.map Prod.fst).Nodup) (hl : c.seenLinks.Nodup) (n : Str) :
    ((Crawl w c start fuel).state.sent.filter (fun it => it.norm = n)).length ≤ 1 ∧
    ((Crawl w c start fuel).state.spawned.filter (fun p => p.norm = n)).length ≤ 1 ∧
    ((Crawl w c start fuel).state.c.seenPages.filter (fun e => e.1 = n)).length ≤ 1 ∧
    ((Crawl w c start fuel).state.c.seenLinks.filter (fun x => x = n)).length ≤ 1 ∧
    ∃ (w0 : World) (c0 : Crawler) (start0 : URL) (fuel0 : Nat) (n0 : Str),
      ((Crawl w0 c0 start0 fuel0).state.sent.filter (fun it => it.norm = n0)).length = 1 ∧
      ((Crawl w0 c0 start0 fuel0).state.spawned.filter (fun p => p.norm = n0)).length = 1 := by
  obtain ⟨h1, h2, h3, -, h5, -⟩ := Crawl_DedupInv w c start fuel hp hl
  refine ⟨filter_length_le_one_of_nodup _ _ h3 n, filter_length_le_one_of_nodup _ _ h5 n,
    filter_length_le_one_of_nodup _ _ h1 n,
    filter_length_le_one_of_nodup id _ (by simpa using h2) n, ?_⟩
  exact ⟨siteWorld twoPages, crawlerFor "http://a.test/" 2, url "http://a.test/", 10,
    "http://a.test/about".toList, by decide!, by decide!⟩

/-- The site `/` -> `/about` -> `https://ext.test/x`, crawled by a fresh
crawler: at most one item that normalizes to `http://a.test/about` is sent. -/
theorem C8_enqueued_and_probed_at_most_once_witness :
    ((crawlerFor "http://a.test/" 2).seenPages.map Prod.fst).Nodup ∧
    (crawlerFor "http://a.test/" 2).seenLinks.Nodup ∧
    ((Crawl (siteWorld twoPages) (crawlerFor "http://a.test/" 2) (url "http://a.test/")
      10).state.sent.filter (fun it => it.norm = "http://a.test/about".toList)).length ≤ 1 :=
  ⟨List.nodup_nil, List.nodup_nil,
   (C8_enqueued_and_probed_at_most_once (siteWorld twoPages) (crawlerFor "http://a.test/" 2)
      (url "http://a.test/") 10 List.nodup_nil List.nodup_nil "http://a.test/about".toList).1⟩

/-! ## The capacity of the frontier channel -/

theorem shouldVisit_of_eligible (ps : Str → Str) (c : Crawler) (u : URL) (d : Int)
    (hd : d ≤ c.MaxDepth) (he : eligible ps c u = true)
    (hn : seenPagesLoad c.seenPages (Normalize (some u)) = false) :
    shouldVisit ps c u d = true := by
  unfold eligible at he
  simp only [Bool.and_eq_true, Bool.or_eq_true, decide_eq_true_eq, Bool.not_eq_true',
    Bool.and_eq_false_iff] at he
  obtain ⟨⟨hs, hi⟩, hr⟩ := he
  unfold shouldVisit
  rw [if_neg (by omega), if_neg (by
    rintro ⟨h1, h2⟩
    rcases hs with hs | hs
    · exact h1 hs
    · exact h2 hs)]
  simp only [hi, hn, Bool.not_true, Bool.false_eq_true, if_false]
  rw [if_neg]
  rintro ⟨h1, h2, h3⟩
  simp only [Bool.not_eq_true'] at h3
  rcases hr with (hr | hr) | hr
  · rw [h1] at hr; exact Bool.noConfusion hr
  · rw [h2] at hr; exact Bool.noConfusion hr
  · simp only [Bool.not_eq_false'] at hr
    rw [h3] at hr
    exact Bool.noConfusion hr

/-- The configuration fields `probeLink` leaves alone. -/
theorem probeLink_config (w : World) (s : CrawlState) (d : Int) (b u : URL) :
    (probeLink w s d b u).c.Normalizer = s.c.Normalizer ∧
    (probeLink w s d b u).c.RespectRobots = s.c.RespectRobots ∧
    (probeLink w s d b u).c.Robots = s.c.Robots := by
  by_cases h : (seenLinksLoadOrStore s.c.seenLinks (Normalize (some u))).2 = true <;>
    simp [probeLink, h]

theorem eligible_congr (ps : Str → Str) (c1 c2 : Crawler) (u : URL)
    (h1 : c1.Normalizer = c2.Normalizer) (h2 : c1.RespectRobots = c2.RespectRobots)
    (h3 : c1.Robots = c2.Robots) : eligible ps c1 u = eligible ps c2 u := by
  unfold eligible
  rw [h1, h2, h3]

/-- A page whose remaining links are all eligible, new and distinct, and more
than the room left in the channel, parks the controller on a send: the links
are sent one by one until the channel holds `frontierCap` items, and the next
send blocks. -/
theorem runLoop_fills_frontier (w : World) :
    ∀ (links : List URL) (s : CrawlState) (d : Int) (b : URL) (fuel : Nat),
      s.cur = some (d, b, links) → d + 1 ≤ s.c.MaxDepth →
      (∀ u ∈ links, eligible w.PublicSuffix s.c u = true) →
      (∀ u ∈ links, Normalize (some u) ∉ pageKeys s) →
      (links.map fun u => Normalize (some u)).Nodup →
      s.q.length ≤ frontierCap → frontierCap < s.q.length + links.length →
      s.discovered + ((frontierCap - s.q.length : Nat) : Int) < s.c.MaxURLs →
      frontierCap - s.q.length + 1 ≤ fuel →
      (runLoop w fuel s).isBlockedSend = true ∧
      (runLoop w fuel s).state.q.length = frontierCap := by
  intro links
  induction links with
  | nil =>
    intro s d b fuel _ _ _ _ _ hq hwide _ _
    simp at hwide
    omega
  | cons u rest ih =>
    intro s d b fuel hcur hd helig hnew hdist hq hwide hcap hfuel
    obtain ⟨f, rfl⟩ : ∃ f, fuel = f + 1 := ⟨fuel - 1, by omega⟩
    obtain ⟨hpq, hps, hpf, hpdisc, hpsp, hpmd, hpmu, hpcur⟩ := probeLink_frame w s d b u
    obtain ⟨hpn, hprr, hprob⟩ := probeLink_config w s d b u
    have hnu : Normalize (some u) ∉ pageKeys s := hnew u (List.mem_cons_self _ _)
    have hload : seenPagesLoad (probeLink w s d b u).c.seenPages (Normalize (some u)) = false := by
      rw [hpsp]
      cases hl : seenPagesLoad s.c.seenPages (Normalize (some u)) with
      | false => rfl
      | true => exact absurd ((seenPagesLoad_iff _ _).1 hl) hnu
    have hv : shouldVisit w.PublicSuffix (probeLink w s d b u).c u (d + 1) = true := by
      apply shouldVisit_of_eligible _ _ _ _ (by rw [hpmd]; exact hd) _ hload
      rw [eligible_congr _ _ s.c u hpn hprr hprob]
      exact helig u (List.mem_cons_self _ _)
    have hroom : ¬ (probeLink w s d b u).discovered ≥ (probeLink w s d b u).c.MaxURLs := by
      rw [hpdisc, hpmu]
      omega
    have hstep : step w s = enqueue (probeLink w s d b u) d b u rest := by
      unfold step
      rw [hcur]
      simp only
      unfold stepLink
      simp only [hv, if_true, hroom, if_false]
    unfold runLoop
    rw [hstep]
    unfold enqueue
    simp only
    by_cases hfull : (probeLink w s d b u).q.length ≥ frontierCap
    · rw [if_pos hfull]
      refine ⟨rfl, ?_⟩
      simp only [Outcome.state]
      rw [hpq] at hfull ⊢
      omega
    · rw [if_neg hfull]
      simp only
      rw [hpq] at hfull
      rw [List.map_cons, List.nodup_cons] at hdist
      apply ih _ d b f rfl
      · simpa [hpmd] using hd
      · intro v hv2
        rw [eligible_congr _ _ s.c v (by simpa using hpn) (by simpa using hprr)
          (by simpa using hprob)]
        exact helig v (List.mem_cons_of_mem _ hv2)
      · intro v hv2 hmem
        unfold pageKeys at hmem hnu
        simp only at hmem
        rw [seenPagesStore_keys, hpsp, if_neg hnu] at hmem
        rcases List.mem_append.1 hmem with hmem | hmem
        · exact hnew v (List.mem_cons_of_mem _ hv2) hmem
        · simp only [List.mem_singleton] at hmem
          apply hdist.1
          rw [← hmem]
          exact List.mem_map_of_mem (fun u => Normalize (some u)) hv2
      · exact hdist.2
      · simp only [hpq, List.length_append, List.length_singleton]
        omega
      · simp only [hpq, List.length_append, List.length_singleton]
        simp only [List.length_cons] at hwide
        omega
      · simp only [hpq, hpdisc, hpmu, List.length_append, List.length_singleton]
        omega
      · simp only [hpq, List.length_append, List.length_singleton]
        omega

/-- C11: the send on the frontier channel does block.  When the start page
yields more than 1024 links that are eligible, new and distinct (and `MaxURLs`
leaves room for them, as the 2000 of `NewCrawler` does), the controller sends
1024 of them, the channel is full, and the send of the next one parks the
controller, the only receiver of the channel, for ever. -/
theorem C11_send_blocks_on_wide_page (w : World) (c : Crawler) (start : URL)
    (resp : Response) (fuel : Nat)
    (hadm : shouldVisit w.PublicSuffix c start 0 = true)
    (hnc : w.done 0 = false)
    (hfetch : fetch w 0 start = .ok resp)
    (hdepth : 1 ≤ c.MaxDepth)
    (helig : ∀ u ∈ extractLinks resp, eligible w.PublicSuffix c u = true)
    (hnew : ∀ u ∈ extractLinks resp, Normalize (some u) ≠ Normalize (some start) ∧
      Normalize (some u) ∉ c.seenPages.map Prod.fst)
    (hdist : ((extractLinks resp).map fun u => Normalize (some u)).Nodup)
    (hwide : frontierCap < (extractLinks resp).length)
    (hcap : (frontierCap : Int) + 1 < c.MaxURLs)
    (hfuel : frontierCap + 2 ≤ fuel) :
    (Crawl w c start fuel).isBlockedSend = true ∧
    (Crawl w c start fuel).state.q.length = frontierCap := by
  obtain ⟨f, rfl⟩ : ∃ f, fuel = f + 1 := ⟨fuel - 1, by omega⟩
  have hunseen := shouldVisit_unseen _ _ _ _ hadm
  have hnot : Normalize (some start) ∉ c.seenPages.map Prod.fst := by
    intro hk
    rw [(seenPagesLoad_iff _ _).2 hk] at hunseen
    exact Bool.noConfusion hunseen
  have hstep : step w (initState c start) =
      Outcome.running
        { initState c start with
          q := [], visited := 1, cur := some (0, resp.RequestURL, extractLinks resp),
          fetched := [{ u := some start, depth := 0 }] } := by
    unfold step stepSelect
    simp [initState, hnc, hfetch]
  unfold Crawl
  simp only [hadm, Bool.not_true, Bool.false_eq_true, if_false]
  unfold runLoop
  rw [hstep]
  simp only
  apply runLoop_fills_frontier w (extractLinks resp) _ 0 resp.RequestURL f rfl
  · simpa [initState] using hdepth
  · intro u hu
    show eligible w.PublicSuffix (initState c start).c u = true
    rw [eligible_congr _ (initState c start).c c u rfl rfl rfl]
    exact helig u hu
  · intro u hu hmem
    unfold pageKeys initState at hmem
    simp only at hmem
    rw [seenPagesStore_keys, if_neg hnot] at hmem
    rcases List.mem_append.1 hmem with hmem | hmem
    · exact (hnew u hu).2 hmem
    · simp only [List.mem_singleton] at hmem
      exact (hnew u hu).1 hmem
  · exact hdist
  · simp [frontierCap]
  · simpa using hwide
  · simp only [initState, List.length_nil, Nat.sub_zero]
    omega
  · simp only [List.length_nil, Nat.sub_zero]
    omega

theorem splitByte_replicate (k : Nat) :
    splitByte '/' (List.replicate k 'a') = [List.replicate k 'a'] := by
  induction k with
  | zero => rfl
  | succ n ih =>
    rw [List.replicate_succ]
    unfold splitByte
    rw [if_neg (by decide), ih]

theorem Clean_wide (k : Nat) :
    Clean ('/' :: List.replicate (k + 1) 'a') = '/' :: List.replicate (k + 1) 'a' := by
  have hseg : List.replicate (k + 1) 'a' ≠ [] ∧ List.replicate (k + 1) 'a' ≠ ['.'] ∧
      List.replicate (k + 1) 'a' ≠ ['.', '.'] := by
    rw [List.replicate_succ]
    refine ⟨by simp, ?_, ?_⟩ <;>
    · intro h
      have := (List.cons.inj h).1
      exact absurd this (by decide)
  unfold Clean
  rw [if_neg (by simp)]
  have hsplit : splitByte '/' ('/' :: List.replicate (k + 1) 'a') =
      [[], List.replicate (k + 1) 'a'] := by
    unfold splitByte
    rw [if_pos rfl, splitByte_replicate]
  simp only [hsplit, List.head?_cons, decide_True, if_true]
  unfold cleanElems
  simp only [true_or, if_true]
  unfold cleanElems
  rw [if_neg (by
    rintro (h | h)
    · exact hseg.1 h
    · exact hseg.2.1 h), if_neg hseg.2.2]
  rfl

theorem escape_replicate (k : Nat) :
    escape (List.replicate k 'a') encodePath = List.replicate k 'a' := by
  induction k with
  | zero => rfl
  | succ n ih =>
    unfold escape at ih ⊢
    rw [List.replicate_succ, List.flatMap_cons, ih]
    rfl

theorem escape_wide (k : Nat) :
    escape ('/' :: List.replicate k 'a') encodePath = '/' :: List.replicate k 'a' := by
  have h := escape_replicate k
  unfold escape at h ⊢
  rw [List.flatMap_cons, h]
  rfl

theorem Normalize_wideLink (i : Nat) :
    Normalize (some (wideLink i)) = "http://a.test/".toList ++ List.replicate (i + 1) 'a' := by
  have h1 : ToLower "http".toList = "http".toList := by decide
  have h2 : reDefaultPortsReplaceAll (ToLower "a.test".toList) = "a.test".toList := by decide
  have h3 : escape "a.test".toList encodeHost = "a.test".toList := by decide
  have hne : '/' :: List.replicate (i + 1) 'a' ≠ ['.'] := by
    intro h
    exact absurd (List.cons.inj h).1 (by decide)
  have hstar : '/' :: List.replicate (i + 1) 'a' ≠ ['*'] := by
    intro h
    exact absurd (List.cons.inj h).1 (by decide)
  unfold Normalize wideLink
  simp only [h1, h2, Clean_wide, if_neg hne]
  simp only [ne_eq, not_true_eq_false, if_false]
  unfold URL.String URL.EscapedPath
  simp [h3, escape_wide, hstar]
  rfl

theorem extractLinks_widePage (n : Nat) : extractLinks (widePage n) = wideLinks n := by
  unfold extractLinks widePage wideLinks
  simp only
  rw [List.filter_eq_self]
  intro u hu
  obtain ⟨i, -, rfl⟩ := List.mem_map.1 hu
  simp [wideLink]

theorem eligible_wideLink (i : Nat) :
    eligible PublicSuffixStar (crawlerFor "http://a.test/" 1) (wideLink i) = true := by
  have h : ∀ u : URL, u.Scheme = "http".toList → u.Host = "a.test".toList →
      eligible PublicSuffixStar (crawlerFor "http://a.test/" 1) u = true := by
    intro u hs hh
    unfold eligible DomainNormalizer.IsInternal URL.Hostname
    have h3 : (crawlerFor "http://a.test/" 1).RespectRobots = false := rfl
    simp [hs, hh, h3]
    decide!
  exact h (wideLink i) rfl rfl

theorem wideLinks_norm_nodup (n : Nat) :
    ((wideLinks n).map fun u => Normalize (some u)).Nodup := by
  unfold wideLinks
  rw [List.map_map]
  apply List.Nodup.map _ (List.nodup_range n)
  intro i j hij
  simp only [Function.comp, Normalize_wideLink] at hij
  have hlen := congrArg List.length hij
  simp at hlen
  exact hlen

theorem fetch_wideWorld (n : Nat) :
    fetch (wideWorld n) 0 (url "http://a.test/") = .ok (widePage n) := by
  have h1 : isPrivateHost (url "http://a.test/") = false := by decide!
  have h2 : (url "http://a.test/").String = "http://a.test/".toList := by decide!
  unfold fetch
  simp [h1, h2, wideWorld]

/-- A start page with 1025 links `http://a.test/a`, `http://a.test/aa`, ...,
crawled with depth 1 by the crawler of `runJob`: after 1024 sends the channel
is full and the controller is parked on the send of the last link. -/
theorem C11_send_blocks_on_wide_page_witness :
    (extractLinks (widePage 1025)).length = 1025 ∧
    (crawlerFor "http://a.test/" 1).MaxURLs = 2000 ∧
    (Crawl (wideWorld 1025) (crawlerFor "http://a.test/" 1) (url "http://a.test/")
      1026).isBlockedSend = true ∧
    (Crawl (wideWorld 1025) (crawlerFor "http://a.test/" 1) (url "http://a.test/")
      1026).state.q.length = 1024 := by
  have hlen : (extractLinks (widePage 1025)).length = 1025 := by
    rw [extractLinks_widePage]
    simp [wideLinks]
  have hstart : Normalize (some (url "http://a.test/")) = "http://a.test/".toList := by decide!
  refine ⟨hlen, rfl, ?_⟩
  apply C11_send_blocks_on_wide_page (wideWorld 1025) (crawlerFor "http://a.test/" 1)
    (url "http://a.test/") (widePage 1025) 1026
  · decide!
  · rfl
  · exact fetch_wideWorld 1025
  · decide
  · intro u hu
    rw [extractLinks_widePage] at hu
    obtain ⟨i, -, rfl⟩ := List.mem_map.1 hu
    exact eligible_wideLink i
  · intro u hu
    rw [extractLinks_widePage] at hu
    obtain ⟨i, -, rfl⟩ := List.mem_map.1 hu
    refine ⟨?_, by simp [crawlerFor, NewCrawler]⟩
    rw [Normalize_wideLink, hstart]
    intro h
    have := congrArg List.length h
    simp at this
  · rw [extractLinks_widePage]
    exact wideLinks_norm_nodup 1025
  · rw [hlen]
    decide
  · decide
  · decide

end LinksOverseer
